import Mathlib

/-!
Verification of the tensor-display formatting engine
(`tvm/python/tvm/contrib/debugger/curses/ui/tensor_data.py`).

The Python source is shallowly embedded: Python `str` values are Lean
`String`s (treated as lists of characters; all inputs of interest are
ASCII), Python `int`s are `Int`, Python lists of ints are `List Int`,
Python dicts keyed by line number are association lists, and every
operation that can raise a Python exception returns `Except PyErr`.
-/

namespace TensorData

/-! ## Python string and list primitives -/

/-- Characters removed by Python `str.strip()` and matched by the regex
class `\s` (ASCII range). -/
def isPySpace (c : Char) : Bool :=
  c = ' ' || c = '\t' || c = '\n' || c = '\x0d' || c = '\x0b' || c = '\x0c'

/-- Python `str.strip()` (default whitespace, ASCII model). -/
def pyStrip (s : String) : String :=
  String.mk (((s.toList.dropWhile isPySpace).reverse.dropWhile isPySpace).reverse)

/-- Python `str.count(c)` for a single-character argument. -/
def countChar (s : String) (c : Char) : Nat :=
  s.toList.count c

/-- Whether `pat` is an initial segment of `cs`. -/
def listPre : List Char → List Char → Bool
  | [], _ => true
  | _ :: _, [] => false
  | p :: ps, c :: cs => p = c && listPre ps cs

/-- Finds the first occurrence (as a character offset) of `pat` in `cs`,
starting at offset `pos`: Python `str.find` restricted to found/not-found. -/
def strFindAux (pat : List Char) : List Char → Nat → Option Nat
  | [], pos => if pat.isEmpty then some pos else none
  | c :: rest, pos =>
    if listPre pat (c :: rest) then some pos else strFindAux pat rest (pos + 1)

/-- Python `sub in s` / `s.find(sub)` combined: the offset of the first
occurrence of `sub` in `s`, if any. -/
def strFind (s sub : String) : Option Nat :=
  strFindAux sub.toList s.toList 0

/-- Python `s.rfind(c)` for a single character: highest offset of `c`,
`-1` when absent. -/
def rfindChar (s : String) (c : Char) : Int :=
  let rec go : List Char → Nat → Int → Int
    | [], _, best => best
    | x :: xs, i, best => go xs (i + 1) (if x = c then (i : Int) else best)
  go s.toList 0 (-1)

/-- Python lexicographic `<` on lists of ints (a shorter list that is a
proper prefix compares less). -/
def pyListLt : List Int → List Int → Bool
  | [], [] => false
  | [], _ :: _ => true
  | _ :: _, [] => false
  | a :: as_, b :: bs => if a < b then true else if b < a then false else pyListLt as_ bs

/-- Python lexicographic `<=` on lists of ints. -/
def pyListLe (a b : List Int) : Bool :=
  pyListLt a b || a = b

/-- Python index normalization for a sequence of length `n`: a negative
index counts from the end; out-of-range indices have no normal form
(`IndexError`). -/
def pyIdx (n : Nat) (i : Int) : Option Nat :=
  let j := if i < 0 then i + n else i
  if 0 ≤ j ∧ j < n then some j.toNat else none

/-- Python `l[i]` on a list of ints (negative indices allowed,
out-of-range is `none`). -/
def pyGet (l : List Int) (i : Int) : Option Int :=
  (pyIdx l.length i).bind fun j => l.get? j

/-- Python `l[i] = v` on a list of ints. -/
def pySet (l : List Int) (i : Int) (v : Int) : Option (List Int) :=
  (pyIdx l.length i).map fun j => l.set j v

/-- Python `" " * (length - len(string)) + string`
(`_pad_string_to_length` in the source). -/
def padStringToLength (s : String) (length : Nat) : String :=
  String.mk (List.replicate (length - s.length) ' ') ++ s

/-! ## The number-matching pattern

The source compiles `_NUMBER_REGEX = r"[-+]?([0-9][-+0-9eE\.]+|nan|inf)(\s|,|\])"`
and walks a line with `re.finditer`.  The pattern is embedded directly:
an optional sign, then either a digit followed by a maximal nonempty run
of characters from the class `[-+0-9eE.]`, or the literal `nan` or `inf`,
then one terminator character from `\s`, `,`, `]`.  Because the body
class and the terminator class are disjoint, the greedy `+` never needs
to backtrack, so taking the maximal run is exactly the regex semantics. -/

/-- The character class `[-+0-9eE.]` (body of a number after its first digit). -/
def isNumBody (c : Char) : Bool :=
  c.isDigit || c = '-' || c = '+' || c = 'e' || c = 'E' || c = '.'

/-- The terminator alternation `(\s|,|\])`. -/
def isTailChar (c : Char) : Bool :=
  isPySpace c || c = ',' || c = ']'

/-- Length matched by the group `([0-9][-+0-9eE\.]+|nan|inf)` at the head
of `cs`, trying the alternatives in the regex's order. -/
def groupLen (cs : List Char) : Option Nat :=
  match cs with
  | [] => none
  | c :: rest =>
    if c.isDigit then
      let k := (rest.takeWhile isNumBody).length
      if k = 0 then none else some (1 + k)
    else if listPre ['n', 'a', 'n'] cs then some 3
    else if listPre ['i', 'n', 'f'] cs then some 3
    else none

/-- Whether the character at offset `n` of `cs` is a terminator. -/
def tailAt (cs : List Char) (n : Nat) : Bool :=
  match cs.drop n with
  | t :: _ => isTailChar t
  | [] => false

/-- Length of the whole pattern matched without the optional sign. -/
def matchNoSign (cs : List Char) : Option Nat :=
  match groupLen cs with
  | some g => if tailAt cs g then some (g + 1) else none
  | none => none

/-- Length of the whole pattern at the head of `cs`; the greedy `[-+]?`
first tries to consume a sign and falls back to no sign. -/
def matchLen (cs : List Char) : Option Nat :=
  match cs with
  | c :: rest =>
    if c = '-' || c = '+' then
      match groupLen rest with
      | some g => if tailAt rest g then some (1 + g + 1) else matchNoSign cs
      | none => matchNoSign cs
    else matchNoSign cs
  | [] => none

/-- Scanner for `re.finditer(_NUMBER_REGEX, line)`: `(start, end)` offset
pairs of the successive non-overlapping matches, resuming after each
match.  `fuel` is a structural-recursion bound; any `fuel ≥` the length
of the list is sufficient since every step consumes at least one
character. -/
def scanAux : Nat → List Char → Nat → List (Nat × Nat)
  | 0, _, _ => []
  | _ + 1, [], _ => []
  | fuel + 1, c :: rest, pos =>
    match matchLen (c :: rest) with
    | some L => (pos, pos + L) :: scanAux fuel ((c :: rest).drop L) (pos + L)
    | none => scanAux fuel rest (pos + 1)

/-- All matches of the number pattern in `line`, in order. -/
def scanMatches (line : String) : List (Nat × Nat) :=
  scanAux line.toList.length line.toList 0

/-! ## Data model -/

/-- Python exceptions raised by the embedded code. -/
inductive PyErr where
  | valueError (msg : String)
  | attributeError (msg : String)
  | typeError
  | keyError
  | indexError
  | zeroDivisionError
deriving Repr, DecidableEq

/-- The per-line annotation recorded by `_annotate_ndarray_lines`: a dict
with either the key `BEGIN_INDICES_KEY = "i0"` or the key
`OMITTED_INDICES_KEY = "omitted"`, holding a copy of the current index
vector. -/
inductive LineAnnot where
  | beginIndices (idx : List Int)
  | omittedIndices (idx : List Int)
deriving Repr, DecidableEq

/-- The index vector of an annotation (either variant). -/
def LineAnnot.indices : LineAnnot → List Int
  | .beginIndices idx => idx
  | .omittedIndices idx => idx

/-- Whether the annotation is the `OMITTED_INDICES_KEY` variant
(Python `OMITTED_INDICES_KEY in annot[r]`). -/
def LineAnnot.isOmitted : LineAnnot → Bool
  | .beginIndices _ => false
  | .omittedIndices _ => true

/-- Semantic class of a numpy dtype, as distinguished by the source's
`np.issubdtype` / `np.bool` / `np.string_` tests. -/
inductive NpDtype where
  | floating
  | integer
  | complexFloating
  | boolean
  | stringType
  | other
deriving Repr, DecidableEq

/-- The `annotations["tensor_metadata"]` entry: dtype and shape of the
tensor being formatted. -/
structure TensorMeta where
  dtypeName : String
  dtypeKind : NpDtype
  shape : List Int
deriving Repr, DecidableEq

/-- Modelled from the spec: the repository's `ui_common.RichTextLines`
("Attributed Text Buffer", spec section 3) is imported by the source but
is not under `src/`.  Per the spec it is an ordered sequence of text
lines, a mapping from line index to attribute ranges
`(start_col, end_col, style)`, and a mapping from line index to a
per-line annotation; the source additionally stores the tensor metadata
under the string key `"tensor_metadata"` of the same annotations dict,
kept here as a separate field. -/
structure RichTextLines where
  lines : List String
  fontAttrSegs : List (Nat × List (Nat × Nat × String))
  metadata : Option TensorMeta
  annots : List (Nat × LineAnnot)
deriving Repr, DecidableEq

/-- Modelled from the spec: `RichTextLines.extend` concatenates two
buffers, shifting the second buffer's line-keyed mappings by the number
of lines of the first (spec section 3: keys are line indices into
`lines`; section 4.4: blocks are appended in sequence). -/
def RichTextLines.extend (a b : RichTextLines) : RichTextLines :=
  let off := a.lines.length
  { lines := a.lines ++ b.lines
    fontAttrSegs := a.fontAttrSegs ++ b.fontAttrSegs.map (fun kv => (kv.1 + off, kv.2))
    metadata := b.metadata.orElse (fun _ => a.metadata)
    annots := a.annots ++ b.annots.map (fun kv => (kv.1 + off, kv.2)) }

/-- Modelled from the spec: appending a single plain line to a buffer. -/
def RichTextLines.appendLine (a : RichTextLines) (s : String) : RichTextLines :=
  { a with lines := a.lines ++ [s] }

/-- Dict lookup on the per-line annotations (`i in annot` / `annot[i]`). -/
def lookupAnnot (annots : List (Nat × LineAnnot)) (i : Nat) : Option LineAnnot :=
  annots.lookup i

/-- Per-coordinate result of `locate_tensor_element`: one slot of the
`are_omitted`, `row_indices`, `start_columns`, `end_columns` lists. -/
structure LocRes where
  isOmitted : Bool
  row : Nat
  startCol : Option Nat
  endCol : Option Nat
deriving Repr, DecidableEq

/-- A numpy print-options dictionary (`np_printoptions` argument) and the
process-wide print-options state mutated by `np.set_printoptions`; only
integer-valued options (such as `edgeitems`) are relevant to this code. -/
abbrev PrintOpts : Type := List (String × Int)

/-- Overwrite-or-append update of one key of an options dictionary. -/
def assocSet : List (String × Int) → String → Int → List (String × Int)
  | [], k, v => [(k, v)]
  | (k1, v1) :: rest, k, v =>
    if k1 = k then (k, v) :: rest else (k1, v1) :: assocSet rest k v

/-- Models `np.set_printoptions(**opts)` on the process-wide state: each
named option is set to the given value; options not named keep their
previous values (nothing is restored afterwards). -/
def npSetPrintoptions (st : PrintOpts) (opts : PrintOpts) : PrintOpts :=
  opts.foldl (fun s kv => assocSet s kv.1 kv.2) st

/-! ## Line Annotator (`_annotate_ndarray_lines`) -/

/-- The module constant `_NUMPY_OMISSION`. -/
def numpyOmission : String := "...,"

/-- The module constant `_NUMPY_DEFAULT_EDGE_ITEMS`. -/
def numpyDefaultEdgeItems : Int := 3

/-- Resolution of `edge_items` from the `np_printoptions` argument:
Python `np_printoptions and "edgeitems" in np_printoptions` (a `None` or
empty dict falls back to the default). -/
def edgeItemsOf (opts : Option PrintOpts) : Int :=
  match opts with
  | some l =>
    if l.isEmpty then numpyDefaultEdgeItems
    else
      match l.lookup "edgeitems" with
      | some v => v
      | none => numpyDefaultEdgeItems
  | none => numpyDefaultEdgeItems

/-- Mutable state of the annotator loop: the current index vector and the
current bracket-nesting depth. -/
structure AnnSt where
  currIndices : List Int
  currDim : Int
deriving Repr, DecidableEq

/-- Zeroing of `curr_indices[k]` for `k in range(curr_dim, ndims)`; the
list has length `ndims`, so clearing every position `≥ curr_dim` is the
same update. -/
def zeroFrom (l : List Int) (currDim : Int) : List Int :=
  l.mapIdx (fun k v => if currDim ≤ (k : Int) then 0 else v)

/-- One iteration of the `_annotate_ndarray_lines` loop body on one raw
text line: returns the annotation recorded for the line (if any) and the
updated state; Python list indexing errors surface as `indexError`. -/
def annotateLine (dims : List Int) (edgeItems : Int) (st : AnnSt) (rawLine : String) :
    Except PyErr (Option LineAnnot × AnnSt) :=
  let line := pyStrip rawLine
  if line = "" then .ok (none, st)
  else if line = numpyOmission then
    match pyGet dims (st.currDim - 1) with
    | none => .error .indexError
    | some dval =>
      match pySet st.currIndices (st.currDim - 1) (dval - edgeItems) with
      | none => .error .indexError
      | some ci => .ok (some (.omittedIndices st.currIndices), ⟨ci, st.currDim⟩)
  else
    let numLbrackets := countChar line '['
    let numRbrackets := countChar line ']'
    let cd := st.currDim + numLbrackets - numRbrackets
    if numRbrackets = 0 then
      let lineContent := String.mk (line.toList.drop (rfindChar line '[' + 1).toNat)
      let numElements := countChar lineContent ','
      match pyGet st.currIndices (cd - 1) with
      | none => .error .indexError
      | some v =>
        match pySet st.currIndices (cd - 1) (v + numElements) with
        | none => .error .indexError
        | some ci => .ok (some (.beginIndices st.currIndices), ⟨ci, cd⟩)
    else
      if cd > 0 then
        match pyGet st.currIndices (cd - 1) with
        | none => .error .indexError
        | some v =>
          match pySet st.currIndices (cd - 1) (v + 1) with
          | none => .error .indexError
          | some ci => .ok (some (.beginIndices st.currIndices), ⟨zeroFrom ci cd, cd⟩)
      else .ok (some (.beginIndices st.currIndices), ⟨st.currIndices, cd⟩)

/-- The annotator loop over the remaining lines, numbering them from `i`. -/
def annotateLinesLoop (dims : List Int) (edgeItems : Int) :
    List String → Nat → AnnSt → Except PyErr (List (Nat × LineAnnot))
  | [], _, _ => .ok []
  | l :: rest, i, st => do
    let (a, st2) ← annotateLine dims edgeItems st l
    let tail ← annotateLinesLoop dims edgeItems rest (i + 1) st2
    match a with
    | some an => .ok ((i, an) :: tail)
    | none => .ok tail

/-- `_annotate_ndarray_lines` (per-line annotations; the
`"tensor_metadata"` entry of the Python dict is the `metadata` field of
the buffer).  A rank-0 tensor yields no per-line annotations. -/
def annotateNdarrayLines (arrayLines : List String) (meta : TensorMeta)
    (npPrintoptions : Option PrintOpts) (offset : Nat) :
    Except PyErr (List (Nat × LineAnnot)) :=
  let edgeItems := edgeItemsOf npPrintoptions
  let ndims := meta.shape.length
  if ndims = 0 then .ok []
  else annotateLinesLoop meta.shape edgeItems arrayLines offset ⟨List.replicate ndims 0, 0⟩

/-! ## Element Locator (`_locate_elements_in_line`, `_validate_indices_list`,
`locate_tensor_element`) -/

/-- The offsets `[indices[-1] - ref_indices[-1] for indices in indices_list]`;
Python raises `IndexError` on an empty coordinate (or empty reference
with a nonempty batch). -/
def offsetsOf (refIndices : List Int) : List (List Int) → Except PyErr (List Int)
  | [] => .ok []
  | ind :: rest =>
    match ind.getLast?, refIndices.getLast? with
    | some a, some r => do
      let t ← offsetsOf refIndices rest
      .ok ((a - r) :: t)
    | _, _ => .error .indexError

/-- The match-consuming loop of `_locate_elements_in_line`: walk the
matches in order, stopping at the first match past the ellipsis; when the
running match counter equals the current head offset, record
`(match.start, match.end - 1)` and move to the next batch slot.  The
recorded columns form a prefix of the batch; remaining slots stay `None`.
`offsets[batch_pos]` past the end of the batch is Python `IndexError`. -/
def matchLoop (ellipsisIndex : Nat) :
    List (Nat × Nat) → List Int → Int → Except PyErr (List (Nat × Nat))
  | [], _, _ => .ok []
  | (s, e) :: ms, offs, counter =>
    if s > ellipsisIndex then .ok []
    else
      match offs with
      | [] => .error .indexError
      | o :: orest =>
        if counter = o then
          if orest.isEmpty then .ok [(s, e - 1)]
          else do
            let r ← matchLoop ellipsisIndex ms orest (counter + 1)
            .ok ((s, e - 1) :: r)
        else matchLoop ellipsisIndex ms (o :: orest) (counter + 1)

/-- `_locate_elements_in_line`: start and end columns (half-open becomes
`[start_col, end_col)` after trimming the trailing separator) of each
requested element of `indices_list` in `line`, `none` where the element's
text cannot be found. -/
def locateElementsInLine (line : String) (indicesList : List (List Int))
    (refIndices : List Int) : Except PyErr (List (Option Nat) × List (Option Nat)) := do
  let offsets ← offsetsOf refIndices indicesList
  let ellipsisIndex :=
    match strFind line numpyOmission with
    | some k => k
    | none => line.toList.length
  let filled ← matchLoop ellipsisIndex (scanMatches line) offsets 0
  let n := indicesList.length
  .ok (filled.map (fun p => some p.1) ++ List.replicate (n - filled.length) none,
       filled.map (fun p => some p.2) ++ List.replicate (n - filled.length) none)

/-- The `"Dimensions mismatch: requested: %d; actual: %d"` message of
`_validate_indices_list`. -/
def dimsMismatchMsg (requested actual : Nat) : String :=
  s!"Dimensions mismatch: requested: {requested}; actual: {actual}"

/-- Per-component bounds check of `_validate_indices_list`
(`req_idx >= siz` is checked before `req_idx < 0`, following the source). -/
def checkBounds : List (Int × Int) → Except PyErr Unit
  | [] => .ok ()
  | (reqIdx, siz) :: rest =>
    if reqIdx ≥ siz then .error (.valueError "Indices exceed tensor dimensions.")
    else if reqIdx < 0 then .error (.valueError "Indices contain negative value(s).")
    else checkBounds rest

/-- The loop of `_validate_indices_list`, carrying `prev_ind` (Python
truthiness: the ascending-order check is skipped while `prev_ind` is
`None` or the empty list). -/
def validateLoop (dims : List Int) :
    List (List Int) → Option (List Int) → Except PyErr Unit
  | [], _ => .ok ()
  | ind :: rest, prev => do
    if ind.length ≠ dims.length then
      .error (.valueError (dimsMismatchMsg ind.length dims.length))
    else do
      checkBounds (ind.zip dims)
      match prev with
      | some p =>
        if p ≠ [] ∧ pyListLt ind p then
          .error (.valueError "Input indices sets are not in ascending order.")
        else validateLoop dims rest (some ind)
      | none => validateLoop dims rest (some ind)

/-- `_validate_indices_list`. -/
def validateIndicesList (indicesList : List (List Int)) (dims : List Int) :
    Except PyErr Unit :=
  validateLoop dims indicesList none

/-- State of the `locate_tensor_element` sweep: the previous annotated
row, its text and indices, the still-unresolved suffix of the batch, and
the results produced so far (in batch order). -/
structure SweepSt where
  prevR : Nat
  prevLine : String
  prevIndices : List Int
  pending : List (List Int)
  done : List LocRes
deriving Repr, DecidableEq

/-- Resolution of a nonempty matching sublist against the previous line:
columns via `_locate_elements_in_line`, the omitted flag from
`annot[prev_r]` (Python `KeyError` if `prev_r` was never annotated). -/
def sweepChunk (annots : List (Nat × LineAnnot)) (st : SweepSt)
    (matching : List (List Int)) : Except PyErr (List LocRes) := do
  let (startCols, endCols) ← locateElementsInLine st.prevLine matching st.prevIndices
  match lookupAnnot annots st.prevR with
  | none => .error .keyError
  | some pa =>
    .ok (List.zipWith (fun s e => ⟨pa.isOmitted, st.prevR, s, e⟩) startCols endCols)

/-- The sweep over line numbers `0, 1, …` (`for i in range(len(lines))`),
skipping unannotated lines.  On each annotated line, the queries lying in
`[prev_indices, annot[i])` (lexicographically) are resolved against the
previous line; the loop breaks as soon as the batch is exhausted (leaving
`prev_*` at their old values, exactly as the `break` in the source). -/
def sweepLoop (lines : List String) (annots : List (Nat × LineAnnot)) :
    List Nat → SweepSt → Except PyErr SweepSt
  | [], st => .ok st
  | i :: rest, st =>
    match lookupAnnot annots i with
    | none => sweepLoop lines annots rest st
    | some a =>
      let idx := a.indices
      let matching := st.pending.filter
        (fun ind => pyListLe st.prevIndices ind && pyListLt ind idx)
      if matching.isEmpty then
        sweepLoop lines annots rest
          { st with prevR := i, prevLine := lines.getD i "", prevIndices := idx }
      else do
        let chunk ← sweepChunk annots st matching
        let pending2 := st.pending.drop matching.length
        if pending2.isEmpty then
          .ok { st with pending := pending2, done := st.done ++ chunk }
        else
          sweepLoop lines annots rest
            { prevR := i, prevLine := lines.getD i "", prevIndices := idx,
              pending := pending2, done := st.done ++ chunk }

/-- The `"tensor_metadata" not in formatted.annotations` check of
`locate_tensor_element` (an `AttributeError` when absent). -/
def getTensorMetadata (formatted : RichTextLines) : Except PyErr TensorMeta :=
  match formatted.metadata with
  | none => .error (.attributeError "tensor_metadata is not available in annotations.")
  | some md => .ok md

/-- `locate_tensor_element` on a batch of coordinates (the
`isinstance(indices[0], list)` branch): metadata check, validation, the
sweep, and the final flush of any still-unresolved batch suffix against
the last annotated line. -/
def locateTensorElement (formatted : RichTextLines) (indicesList : List (List Int)) :
    Except PyErr (List LocRes) := do
  let md ← getTensorMetadata formatted
  validateIndicesList indicesList md.shape
  let st0 : SweepSt :=
    ⟨0, "", List.replicate md.shape.length 0, indicesList, []⟩
  let st ← sweepLoop formatted.lines formatted.annots
    (List.range formatted.lines.length) st0
  if st.pending.isEmpty then .ok st.done
  else do
    let chunk ← sweepChunk formatted.annots st st.pending
    .ok (st.done ++ chunk)

/-- `locate_tensor_element` on a single coordinate (the non-batch branch
returns the four scalars `are_omitted[0], row_indices[0], …`). -/
def locateTensorElementSingle (formatted : RichTextLines) (indices : List Int) :
    Except PyErr LocRes := do
  let res ← locateTensorElement formatted [indices]
  match res.head? with
  | some r => .ok r
  | none => .error .indexError

/-! ## Numeric Summarizer (`numeric_summary`, `_counts_summary`) -/

/-- Model of one element of a real-valued numpy array (floating, integer
or boolean dtype): IEEE nan, the two infinities, or a finite value
(rationals subsume every finite float and every integer). -/
inductive NpValue where
  | nan
  | neginf
  | posinf
  | fin (q : ℚ)
deriving Repr, DecidableEq

/-- Models elementwise `np.isnan`. -/
def npIsNan : NpValue → Bool
  | .nan => true
  | _ => false

/-- Models elementwise `np.isneginf` on real input. -/
def npIsNegInf : NpValue → Bool
  | .neginf => true
  | _ => false

/-- Models elementwise `np.isposinf` on real input. -/
def npIsPosInf : NpValue → Bool
  | .posinf => true
  | _ => false

/-- Models elementwise `tensor < 0.0` (false for nan). -/
def npLtZero : NpValue → Bool
  | .neginf => true
  | .fin q => q < 0
  | _ => false

/-- Models elementwise `tensor == 0.0` (false for nan and infinities). -/
def npEqZero : NpValue → Bool
  | .fin q => q = 0
  | _ => false

/-- Models elementwise `tensor > 0.0` (false for nan). -/
def npGtZero : NpValue → Bool
  | .posinf => true
  | .fin q => 0 < q
  | _ => false

/-- Models `np.isneginf` / `np.isposinf` rejecting complex input: both
are built on `np.signbit`, which is not defined for complex values, so
numpy raises `TypeError` when `numeric_summary` builds its counts list
for a complex array. -/
def npComplexGuard (kind : NpDtype) : Except PyErr Unit :=
  if kind = NpDtype.complexFloating then .error .typeError else .ok ()

/-- The six category counts built by `numeric_summary` for a numeric
tensor: `nan`, `-inf`, strictly-negative finite, zero, strictly-positive
finite, `+inf`. -/
def sixCounts (values : List NpValue) : List (String × Nat) :=
  [("nan", values.countP (fun v => npIsNan v)),
   ("-inf", values.countP (fun v => npIsNegInf v)),
   ("-", values.countP (fun v => npLtZero v && !npIsNegInf v)),
   ("0", values.countP (fun v => npEqZero v)),
   ("+", values.countP (fun v => npGtZero v && !npIsPosInf v)),
   ("+inf", values.countP (fun v => npIsPosInf v))]

/-- `valid_array`: the elements that are neither infinite nor nan
(`tensor[~(isinf | isnan)]`), i.e. exactly the finite values. -/
def validValues (values : List NpValue) : List ℚ :=
  values.filterMap (fun v =>
    match v with
    | .fin q => some q
    | _ => none)

/-- The inner helper `_counts_summary`: a two-row fixed-width table.
With `skipZeros` the falsy-valued columns are dropped; a `totalCount`
appends a trailing `total` column whose width is computed afresh. -/
def countsSummaryLines {α : Type} (toStr : α → String) (truthy : α → Bool)
    (skipZeros : Bool) (totalCount : Option Nat)
    (counts : List (String × α)) : List String :=
  let counts := if skipZeros then counts.filter (fun kv => truthy kv.2) else counts
  let maxCommonLen := counts.foldl
    (fun m kv => max (max (kv.1.length + 1) ((toStr kv.2).length + 1)) m) 0
  let keyLine :=
    counts.foldl (fun acc kv => acc ++ padStringToLength kv.1 maxCommonLen) "|" ++ " |"
  let valLine :=
    counts.foldl (fun acc kv => acc ++ padStringToLength (toStr kv.2) maxCommonLen) "|"
      ++ " |"
  match totalCount with
  | none => [keyLine, valLine]
  | some tc =>
    let totalValStr := toString tc
    let m := max ("total".length + 1) totalValStr.length
    [keyLine ++ padStringToLength "total" m ++ " |",
     valLine ++ padStringToLength totalValStr m ++ " |"]

/-- `np.min` of a nonempty list of finite values. -/
def npMin : List ℚ → ℚ
  | [] => 0
  | x :: xs => xs.foldl min x

/-- `np.max` of a nonempty list of finite values. -/
def npMax : List ℚ → ℚ
  | [] => 0
  | x :: xs => xs.foldl max x

/-- `np.mean`: the exact arithmetic mean. -/
def npMean (l : List ℚ) : ℚ :=
  l.sum / l.length

/-- Models `np.std`: the population standard deviation is the square root
of this variance.  The square root of a rational is irrational in
general, so the model carries the variance; only the digits printed in
the statistics row differ, and no proved property concerns them. -/
def npStdVal (l : List ℚ) : ℚ :=
  (l.map (fun x => (x - npMean l) ^ 2)).sum / l.length

/-- Models `str()` of a floating statistic: exact decimal rendering of an
IEEE double is outside the rational model; no proved property depends on
these strings. -/
def statStr (q : ℚ) : String := toString q

/-- The `min`/`max`/`mean`/`std` table appended for tensors with at least
one finite element (`skip_zeros=False`, no total column). -/
def statsLines (valid : List ℚ) : List String :=
  countsSummaryLines statStr (fun _ => true) false none
    [("min", npMin valid), ("max", npMax valid),
     ("mean", npMean valid), ("std", npStdVal valid)]

/-- `numeric_summary` of an ndarray, as its list of text lines: notice
for an empty tensor, counts table (plus statistics table when a finite
element exists) for numeric dtypes, `False`/`True` counts for booleans,
and a notice for other dtypes. -/
def numericSummaryLines (dtypeKind : NpDtype) (dtypeName : String)
    (values : List NpValue) : Except PyErr (List String) :=
  if values.length = 0 then
    .ok ["No numeric summary available due to empty tensor."]
  else
    match dtypeKind with
    | .floating | .complexFloating | .integer => do
      npComplexGuard dtypeKind
      let output := countsSummaryLines toString (fun n => n != 0) true
        (some values.length) (sixCounts values)
      let validArray := validValues values
      if validArray.length ≠ 0 then .ok (output ++ statsLines validArray)
      else .ok output
    | .boolean =>
      .ok (countsSummaryLines toString (fun n => n != 0) true (some values.length)
        [("False", values.countP (fun v => npEqZero v)),
         ("True", values.countP (fun v => npGtZero v))])
    | .stringType | .other =>
      .ok ["No numeric summary available due to tensor dtype: " ++ dtypeName ++ "."]

/-! ## Tensor Formatter (`format_tensor`) -/

/-- The tensor argument of `format_tensor`: a
`data_dump.InconvertibleTensorProto` (modelled from the spec: that class
is not under `src/`; it is a non-renderable placeholder whose `str()`
lines are carried directly), any non-ndarray object (its `repr()` lines
carried directly), or an ndarray with its metadata, flattened element
values, and the text lines of its `repr()` (the external array renderer
of spec section 6). -/
inductive FormatInput where
  | inconvertible (textLines : List String)
  | nonArray (reprLines : List String)
  | ndarray (meta : TensorMeta) (values : List NpValue) (reprLines : List String)

/-- `HighlightOptions`, with the criterion callable modelled from the
spec (section 6): the coordinate list that
`np.argwhere(criterion(tensor))` produces is carried directly, in the
row-major (ascending lexicographic) order numpy yields. -/
structure HighlightOpts where
  criterionIndices : List (List Int)
  description : Option String
  fontAttr : String

/-- Python `str.isdigit` (nonempty and all digits). -/
def pyIsDigitStr (s : String) : Bool :=
  !s.isEmpty && s.toList.all Char.isDigit

/-- Python `s.split(c)` for a one-character separator, on the character
list: every occurrence of `c` starts a new chunk, so `n` separators give
`n + 1` chunks (empty chunks included). -/
def splitOnChar (c : Char) : List Char → List (List Char)
  | [] => [[]]
  | x :: xs =>
    match splitOnChar c xs, decide (x = c) with
    | r, true => [] :: r
    | [], false => [[x]]
    | y :: ys, false => (x :: y) :: ys

/-- The font attribute segments placed on the label line: a numeric
output-slot suffix is shown in one style, a textual debug-op suffix in
two.  Intermediate Python arithmetic is on `int` (the stored bounds are
nonnegative). -/
def labelSegs (label : String) : List (Nat × Nat × String) :=
  let suffix := String.mk ((splitOnChar ':' label.toList).getLastD [])
  if pyIsDigitStr suffix then [(8, 8 + label.length, "white")]
  else
    let properLen : Int := (label.length : Int) - suffix.length - 1
    [(8, ((8 : Int) + properLen).toNat, "white"),
     (((8 : Int) + properLen + 1).toNat,
      ((8 : Int) + properLen + 1 + suffix.length).toNat, "yellow")]

/-- Python `str(tuple(shape))` (the `.replace("L", "")` of the source
strips a Python-2 long suffix that the integer model never prints). -/
def pyTupleStr (l : List Int) : String :=
  match l with
  | [] => "()"
  | [x] => "(" ++ toString x ++ ",)"
  | x :: xs =>
    "(" ++ toString x ++ xs.foldl (fun acc y => acc ++ ", " ++ toString y) "" ++ ")"

/-- `np.size`: the number of elements, the product of the shape. -/
def npSize (shape : List Int) : Int :=
  shape.foldl (fun a b => a * b) 1

/-- Two-decimal rendering of a value given in hundredths. -/
def twoDecStr (r : Int) : String :=
  let whole := r / 100
  let frac := (r % 100).toNat
  let fracStr := if frac < 10 then "0" ++ toString frac else toString frac
  toString whole ++ "." ++ fracStr

/-- Models the `"%.2f"` rendering of
`len(indices_list) / float(total_elements) * 100.0`: the exact rational
percentage `k * 10000 / n` rounded to the nearest number of hundredths,
computed as the floor of `k * 10000 / n + 1 / 2` by integer division
(IEEE double arithmetic can differ in the last printed digit on ties; no
proved property depends on this string). -/
def pctStr (k : Nat) (n : Int) : String :=
  twoDecStr ((2 * ((k : Int) * 10000) + n).fdiv (2 * n))

/-- The `"Highlighted%s: %d of %d element(s) (%.2f%%)"` summary appended
to the first line (an empty description is falsy in Python and omitted
like `None`). -/
def highlightSummaryStr (description : Option String) (k : Nat) (n : Int) : String :=
  let dPart :=
    match description with
    | some d => if d = "" then "" else "(" ++ d ++ ")"
    | none => ""
  "Highlighted" ++ dPart ++ ": " ++ toString k ++ " of " ++ toString n
    ++ " element(s) (" ++ pctStr k n ++ "%)"

/-- Appending one highlight range on a row of `font_attr_segs`: extend
the row's existing list, or add the row as a new dict key. -/
def addFontAttrSeg (segs : List (Nat × List (Nat × Nat × String))) (row : Nat)
    (seg : Nat × Nat × String) : List (Nat × List (Nat × Nat × String)) :=
  if (segs.lookup row).isSome then
    segs.map (fun kv => if kv.1 = row then (kv.1, kv.2 ++ [seg]) else kv)
  else segs ++ [(row, [seg])]

/-- The label line emitted at the top of the buffer when a label is
given. -/
def labelLines (tensorLabel : Option String) : List String :=
  match tensorLabel with
  | some lb => ["Tensor \"" ++ lb ++ "\":"]
  | none => []

/-- The attribute segments placed on line 0 when a label is given. -/
def labelAttrSegs (tensorLabel : Option String) :
    List (Nat × List (Nat × Nat × String)) :=
  match tensorLabel with
  | some lb => [(0, labelSegs lb)]
  | none => []

/-- The head of the formatted buffer: label line, optional dtype/shape
metadata lines, and the blank separator appended when any line was
emitted, carrying the label's attribute segments. -/
def headerBuf (tensorLabel : Option String) (includeMetadata : Bool)
    (meta : TensorMeta) : RichTextLines :=
  let lines0 : List String := labelLines tensorLabel
  let lines1 :=
    if includeMetadata then
      lines0 ++ ["  dtype: " ++ meta.dtypeName, "  shape: " ++ pyTupleStr meta.shape]
    else lines0
  let lines2 := if lines1.isEmpty then lines1 else lines1 ++ [""]
  ⟨lines2, labelAttrSegs tensorLabel, none, []⟩

/-- Extension of the header by the caller's auxiliary message, when
given. -/
def auxExtend (formatted : RichTextLines) (aux : Option RichTextLines) :
    RichTextLines :=
  match aux with
  | some a => formatted.extend a
  | none => formatted

/-- The optional numeric-summary block appended after the header and the
auxiliary message. -/
def summaryBlock (f1 : RichTextLines) (includeNumericSummary : Bool)
    (meta : TensorMeta) (values : List NpValue) : Except PyErr RichTextLines :=
  if includeNumericSummary then do
    let ns ← numericSummaryLines meta.dtypeKind meta.dtypeName values
    pure (((f1.appendLine "Numeric summary:").extend ⟨ns, [], none, []⟩).appendLine "")
  else pure f1

/-- The per-line annotations and metadata entry attached to the rendered
array lines (`None` for string dtypes). -/
def annotsPart (arrayLines : List String) (meta : TensorMeta)
    (npPrintoptions : Option PrintOpts) :
    Except PyErr (List (Nat × LineAnnot) × Option TensorMeta) :=
  if meta.dtypeKind = NpDtype.stringType then
    pure (([] : List (Nat × LineAnnot)), (none : Option TensorMeta))
  else do
    let a ← annotateNdarrayLines arrayLines meta npPrintoptions 0
    pure (a, some meta)

/-- The optional highlight pass: the summary string is appended to line 0
and each located, non-omitted, column-determined element receives an
extra attribute range. -/
def highlightPart (f3 : RichTextLines) (meta : TensorMeta)
    (highlightOptions : Option HighlightOpts) : Except PyErr RichTextLines :=
  match highlightOptions with
  | none => .ok f3
  | some ho => do
    let indicesList := ho.criterionIndices
    let totalElements := npSize meta.shape
    if totalElements = 0 then .error .zeroDivisionError
    else do
      let summary := highlightSummaryStr ho.description indicesList.length totalElements
      let f4 ←
        match f3.lines with
        | [] => .error .indexError
        | l0 :: rest => pure { f3 with lines := (l0 ++ " " ++ summary) :: rest }
      if indicesList.isEmpty then .ok f4
      else do
        let results ← locateTensorElement f4 indicesList
        let f5 := results.foldl
          (fun acc r =>
            if r.isOmitted then acc
            else
              match r.startCol, r.endCol with
              | some sc, some ec =>
                { acc with fontAttrSegs :=
                    addFontAttrSeg acc.fontAttrSegs r.row (sc, ec, ho.fontAttr) }
              | _, _ => acc) f4
        .ok f5

/-- The buffer produced by `format_tensor`, following the source line by
line (the process-wide print-options state is never read by the
formatting itself; its update is `formatTensorState`). -/
def formatTensorBuf (tensor : FormatInput) (tensorLabel : Option String)
    (includeMetadata : Bool) (auxiliaryMessage : Option RichTextLines)
    (includeNumericSummary : Bool) (npPrintoptions : Option PrintOpts)
    (highlightOptions : Option HighlightOpts) :
    Except PyErr RichTextLines :=
  match tensor with
  | .inconvertible textLines =>
    let lines0 : List String := labelLines tensorLabel
    let lines1 := if lines0.isEmpty then lines0 else lines0 ++ [""]
    .ok ⟨lines1 ++ textLines, [], none, []⟩
  | .nonArray reprLines =>
    let lines0 : List String := labelLines tensorLabel
    let lines1 := if lines0.isEmpty then lines0 else lines0 ++ [""]
    .ok ⟨lines1 ++ reprLines, [], none, []⟩
  | .ndarray meta values reprLines => do
    let f1 := auxExtend (headerBuf tensorLabel includeMetadata meta) auxiliaryMessage
    let f2 ← summaryBlock f1 includeNumericSummary meta values
    let arrayLines := reprLines
    let p ← annotsPart arrayLines meta npPrintoptions
    let f3 := f2.extend ⟨arrayLines, [], p.2, p.1⟩
    highlightPart f3 meta highlightOptions

/-- The process-wide print-options state after a `format_tensor` call:
`np.set_printoptions(**np_printoptions)` runs on the array path when a
dictionary is given (and is never restored); the placeholder and
non-array short circuits return before that call. -/
def formatTensorState (tensor : FormatInput) (npPrintoptions : Option PrintOpts)
    (printState : PrintOpts) : PrintOpts :=
  match tensor, npPrintoptions with
  | .ndarray _ _ _, some opts => npSetPrintoptions printState opts
  | _, _ => printState

/-- `format_tensor`: the produced buffer together with the process-wide
print-options state after the call. -/
def formatTensor (tensor : FormatInput) (tensorLabel : Option String)
    (includeMetadata : Bool) (auxiliaryMessage : Option RichTextLines)
    (includeNumericSummary : Bool) (npPrintoptions : Option PrintOpts)
    (highlightOptions : Option HighlightOpts) (printState : PrintOpts) :
    Except PyErr (RichTextLines × PrintOpts) := do
  let buf ← formatTensorBuf tensor tensorLabel includeMetadata auxiliaryMessage
    includeNumericSummary npPrintoptions highlightOptions
  .ok (buf, formatTensorState tensor npPrintoptions printState)

/-! ## Properties under verification -/

/-- Ordering of two locate results, in query order: the earlier query's
row is smaller, or the rows agree and any two determined start columns
are strictly increasing. -/
def ResRel (x y : LocRes) : Prop :=
  x.row < y.row ∨
    (x.row = y.row ∧
      ∀ c c2, x.startCol = some c → y.startCol = some c2 → c < c2)

/-- Well-formedness of an attributed buffer (spec section 3): every key
of the attribute mapping and of the annotation mapping is a valid line
index. -/
def BufWF (b : RichTextLines) : Prop :=
  (∀ kv ∈ b.fontAttrSegs, kv.1 < b.lines.length) ∧
    (∀ kv ∈ b.annots, kv.1 < b.lines.length)

/-- Invariant of the `locate_tensor_element` sweep while the line numbers
`is` are still to be processed: results so far are ordered, no result row
exceeds the previous annotated row, a result sitting on the previous row
has no determined column (its line text was the initial empty string),
the previous row does not exceed any upcoming line number, the upcoming
line numbers increase, and if the previous row is itself upcoming then
its recorded text is still the initial empty string. -/
def SweepInv (st : SweepSt) (is : List Nat) : Prop :=
  st.done.Pairwise ResRel ∧
  (∀ r ∈ st.done, r.row ≤ st.prevR) ∧
  (∀ r ∈ st.done, r.row = st.prevR → r.startCol = none) ∧
  (∀ j ∈ is, st.prevR ≤ j) ∧
  is.Pairwise (· < ·) ∧
  (st.prevR ∈ is → st.prevLine = "")

/-! ## Theorems -/

/-- Bind of a success in the `Except` monad. -/
@[simp] theorem exceptOkBind {ε α β : Type} (a : α) (f : α → Except ε β) :
    (Except.ok a : Except ε α) >>= f = f a := rfl

/-- Bind of a failure in the `Except` monad. -/
@[simp] theorem exceptErrorBind {ε α β : Type} (e : ε) (f : α → Except ε β) :
    (Except.error e : Except ε α) >>= f = Except.error e := rfl

/-- The metadata fetch succeeds exactly on buffers carrying metadata. -/
theorem getTensorMetadata_some {buf : RichTextLines} {md : TensorMeta}
    (h : buf.metadata = some md) : getTensorMetadata buf = .ok md := by
  unfold getTensorMetadata
  rw [h]

/-- Claim C3: when the line annotator processes a line that (after
trimming) equals the omission marker, it records an `Omitted` annotation
carrying a copy of the current coordinate vector for that line, and then
sets `curr_indices[curr_dim-1]` to `shape[curr_dim-1] - edge_items` (it
does not merely subtract `edge_items`), so that indexing after the
ellipsis resumes at `shape[dim] - edge_items`. -/
theorem annotateLine_omission_sets_resume_index
    (dims : List Int) (edgeItems : Int) (st : AnnSt) (rawLine : String)
    (hline : pyStrip rawLine = numpyOmission)
    (hlen : st.currIndices.length = dims.length)
    (j : Nat) (hj : pyIdx dims.length (st.currDim - 1) = some j)
    (dval : Int) (hd : dims[j]? = some dval) :
    annotateLine dims edgeItems st rawLine =
      .ok (some (.omittedIndices st.currIndices),
        ⟨st.currIndices.set j (dval - edgeItems), st.currDim⟩) := by
  unfold annotateLine
  rw [hline, if_neg (by decide : ¬(numpyOmission = "")), if_pos rfl]
  unfold pyGet pySet
  rw [hlen, hj]
  simp [hd]

/-- Witness for C3: a concrete omission line with shape `[10, 3]` and the
default three edge items resumes the first coordinate at `10 - 3 = 7`. -/
theorem annotateLine_omission_witness :
    pyStrip "  ...,  " = numpyOmission ∧
    [3, 0].length = [10, 3].length ∧
    annotateLine [10, 3] 3 ⟨[3, 0], 1⟩ "  ...,  " =
      .ok (some (.omittedIndices [3, 0]), ⟨[7, 0], 1⟩) :=
  ⟨by decide, by decide,
    annotateLine_omission_sets_resume_index [10, 3] 3 ⟨[3, 0], 1⟩ "  ...,  "
      (by decide) (by decide) 0 (by decide) 10 (by decide)⟩

/-- Claim C7: for a rank-0 tensor the line annotator returns an empty
mapping (zero per-line annotations), and any locate query on the
resulting buffer with a non-empty coordinate raises `InvalidQuery`
(a `ValueError`) due to rank mismatch, the expected coordinate length
being 0. -/
theorem rank0_no_annotations_and_locate_errors
    (arrayLines : List String) (meta : TensorMeta) (hsh : meta.shape = [])
    (opts : Option PrintOpts) (offset : Nat)
    (buf : RichTextLines) (hmd : buf.metadata = some meta)
    (coord : List Int) (hc : coord ≠ []) :
    annotateNdarrayLines arrayLines meta opts offset = .ok [] ∧
    locateTensorElementSingle buf coord =
      .error (.valueError (dimsMismatchMsg coord.length 0)) := by
  have hlen : coord.length ≠ 0 := by
    simpa [List.length_eq_zero] using hc
  constructor
  · unfold annotateNdarrayLines
    rw [hsh]
    rfl
  · unfold locateTensorElementSingle locateTensorElement
    rw [getTensorMetadata_some hmd]
    rw [exceptOkBind, hsh]
    unfold validateIndicesList validateLoop
    simp [hlen]

/-- Witness for C7: a concrete rank-0 buffer with a single length-1
query coordinate. -/
theorem rank0_witness :
    (⟨"float64", NpDtype.floating, []⟩ : TensorMeta).shape = [] ∧
    ([0] : List Int) ≠ [] ∧
    annotateNdarrayLines ["array(3.5)"] ⟨"float64", NpDtype.floating, []⟩ none 0 = .ok [] ∧
    locateTensorElementSingle
        ⟨["array(3.5)"], [], some ⟨"float64", NpDtype.floating, []⟩, []⟩ [0] =
      .error (.valueError (dimsMismatchMsg 1 0)) := by
  refine ⟨rfl, by decide, ?_⟩
  exact rank0_no_annotations_and_locate_errors ["array(3.5)"]
    ⟨"float64", NpDtype.floating, []⟩ rfl none 0
    ⟨["array(3.5)"], [], some ⟨"float64", NpDtype.floating, []⟩, []⟩ rfl [0] (by decide)

/-- Nothing compares lexicographically below the empty list. -/
theorem pyListLt_nil (a : List Int) : pyListLt a [] = false := by
  cases a <;> rfl

/-- Every error of the bounds check is a `ValueError`. -/
theorem checkBounds_error_form {l : List (Int × Int)} {e : PyErr}
    (h : checkBounds l = .error e) : ∃ m, e = PyErr.valueError m := by
  induction l with
  | nil => simp [checkBounds] at h
  | cons p rest ih =>
    unfold checkBounds at h
    split at h
    · exact ⟨_, (Except.error.injEq _ _).mp h |>.symm⟩
    · split at h
      · exact ⟨_, (Except.error.injEq _ _).mp h |>.symm⟩
      · exact ih h

/-- A successful bounds check leaves no out-of-range component. -/
theorem checkBounds_ok {l : List (Int × Int)} (h : checkBounds l = .ok ()) :
    ∀ p ∈ l, ¬(p.1 < 0 ∨ p.2 ≤ p.1) := by
  induction l with
  | nil => intro p hp; simp at hp
  | cons q rest ih =>
    unfold checkBounds at h
    split at h
    · simp at h
    · split at h
      · simp at h
      · intro p hp
        rcases List.mem_cons.mp hp with rfl | hp
        · intro hv
          rcases hv with hv | hv
          · omega
          · omega
        · exact ih h p hp

/-- A validation failure makes `locate_tensor_element` fail with the same
error before any sweep step runs. -/
theorem locate_error_of_validate {buf : RichTextLines} {md : TensorMeta}
    (hmd : buf.metadata = some md) {il : List (List Int)} {e : PyErr}
    (hv : validateIndicesList il md.shape = .error e) :
    locateTensorElement buf il = .error e := by
  unfold locateTensorElement
  rw [getTensorMetadata_some hmd, exceptOkBind, hv, exceptErrorBind]

/-- Any rank mismatch, out-of-bounds component, strictly decreasing
adjacent pair, or decrease below the carried `prev_ind` makes the
validation loop fail with a `ValueError`. -/
theorem validateLoop_error_of_viol (dims : List Int) :
    ∀ (il : List (List Int)) (prev : Option (List Int)),
      ((∃ ind ∈ il, ind.length ≠ dims.length) ∨
       (∃ ind ∈ il, ∃ p ∈ ind.zip dims, p.1 < 0 ∨ p.2 ≤ p.1) ∨
       (∃ k a b, il[k]? = some a ∧ il[k + 1]? = some b ∧ pyListLt b a = true) ∨
       (∃ b0 p, il.head? = some b0 ∧ prev = some p ∧ pyListLt b0 p = true)) →
      ∃ msg, validateLoop dims il prev = .error (.valueError msg) := by
  intro il
  induction il with
  | nil =>
    intro prev hviol
    simp at hviol
  | cons ind rest ih =>
    intro prev hviol
    by_cases hL : ind.length ≠ dims.length
    · exact ⟨dimsMismatchMsg ind.length dims.length, by simp [validateLoop, hL]⟩
    · push_neg at hL
      cases hcb : checkBounds (ind.zip dims) with
      | error e =>
        obtain ⟨m, hm⟩ := checkBounds_error_form hcb
        subst hm
        exact ⟨m, by simp [validateLoop, hL, hcb]⟩
      | ok u =>
        cases u
        have hnoviol := checkBounds_ok hcb
        -- The violation cannot be on the head coordinate's length or bounds.
        have hrest :
            (∃ ind2 ∈ rest, ind2.length ≠ dims.length) ∨
            (∃ ind2 ∈ rest, ∃ p ∈ ind2.zip dims, p.1 < 0 ∨ p.2 ≤ p.1) ∨
            (∃ k a b, rest[k]? = some a ∧ rest[k + 1]? = some b ∧ pyListLt b a = true) ∨
            (∃ b0 p, rest.head? = some b0 ∧ (some ind : Option (List Int)) = some p ∧
              pyListLt b0 p = true) ∨
            (∃ p, prev = some p ∧ pyListLt ind p = true) := by
          rcases hviol with ⟨i2, hi2, hlen⟩ | ⟨i2, hi2, q, hq, hv⟩ | ⟨k, a, b, ha, hb, hlt⟩
              | ⟨b0, p, hb0, hp, hlt⟩
          · rcases List.mem_cons.mp hi2 with rfl | hm
            · exact absurd hL hlen
            · exact Or.inl ⟨i2, hm, hlen⟩
          · rcases List.mem_cons.mp hi2 with rfl | hm
            · exact absurd hv (hnoviol q hq)
            · exact Or.inr (Or.inl ⟨i2, hm, q, hq, hv⟩)
          · cases k with
            | zero =>
              simp only [List.getElem?_cons_zero, Option.some.injEq] at ha
              simp only [List.getElem?_cons_succ] at hb
              subst ha
              cases rest with
              | nil => simp at hb
              | cons r0 rtail =>
                simp only [List.getElem?_cons_zero, Option.some.injEq] at hb
                exact Or.inr (Or.inr (Or.inr (Or.inl ⟨b, ind, by simp [hb], rfl, hlt⟩)))
            | succ k2 =>
              simp only [List.getElem?_cons_succ] at ha hb
              exact Or.inr (Or.inr (Or.inl ⟨k2, a, b, ha, hb, hlt⟩))
          · simp only [List.head?_cons, Option.some.injEq] at hb0
            subst hb0
            exact Or.inr (Or.inr (Or.inr (Or.inr ⟨p, hp, hlt⟩)))
        rcases prev with _ | p
        · -- no previous coordinate: the fifth possibility is vacuous
          have hr4 : (∃ ind2 ∈ rest, ind2.length ≠ dims.length) ∨
              (∃ ind2 ∈ rest, ∃ q ∈ ind2.zip dims, q.1 < 0 ∨ q.2 ≤ q.1) ∨
              (∃ k a b, rest[k]? = some a ∧ rest[k + 1]? = some b ∧
                pyListLt b a = true) ∨
              (∃ b0 p2, rest.head? = some b0 ∧
                (some ind : Option (List Int)) = some p2 ∧ pyListLt b0 p2 = true) := by
            rcases hrest with h | h | h | h | h
            · exact Or.inl h
            · exact Or.inr (Or.inl h)
            · exact Or.inr (Or.inr (Or.inl h))
            · exact Or.inr (Or.inr (Or.inr h))
            · obtain ⟨p2, hp2, _⟩ := h
              cases hp2
          obtain ⟨msg, hmsg⟩ := ih (some ind) hr4
          exact ⟨msg, by simp [validateLoop, hL, hcb, hmsg]⟩
        · by_cases hcond : p ≠ [] ∧ pyListLt ind p = true
          · exact ⟨"Input indices sets are not in ascending order.",
              by simp [validateLoop, hL, hcb, hcond]⟩
          · have hr4 : (∃ ind2 ∈ rest, ind2.length ≠ dims.length) ∨
                (∃ ind2 ∈ rest, ∃ q ∈ ind2.zip dims, q.1 < 0 ∨ q.2 ≤ q.1) ∨
                (∃ k a b, rest[k]? = some a ∧ rest[k + 1]? = some b ∧
                  pyListLt b a = true) ∨
                (∃ b0 p2, rest.head? = some b0 ∧
                  (some ind : Option (List Int)) = some p2 ∧ pyListLt b0 p2 = true) := by
              rcases hrest with h | h | h | h | h
              · exact Or.inl h
              · exact Or.inr (Or.inl h)
              · exact Or.inr (Or.inr (Or.inl h))
              · exact Or.inr (Or.inr (Or.inr h))
              · obtain ⟨p2, hp2, hplt⟩ := h
                rw [Option.some.injEq] at hp2
                subst hp2
                rcases eq_or_ne p [] with hpe | hpe
                · rw [hpe, pyListLt_nil] at hplt
                  cases hplt
                · exact absurd ⟨hpe, hplt⟩ hcond
            obtain ⟨msg, hmsg⟩ := ih (some ind) hr4
            refine ⟨msg, ?_⟩
            have hnc : ¬(p ≠ [] ∧ pyListLt ind p) := by
              simpa using hcond
            simp [validateLoop, hL, hcb, hnc, hmsg]

/-- Claim C4: `locate_tensor_element` raises an `InvalidQuery` error (a
`ValueError`) whenever a queried coordinate's length differs from the
tensor rank, a component is negative or at least `shape[dim]`, or an
adjacent pair in a batch is strictly decreasing in lexicographic order;
the error is raised before any per-coordinate result is produced
(validation precedes the sweep, so the call yields no partial results). -/
theorem locate_invalid_query_errors
    (buf : RichTextLines) (md : TensorMeta) (hmd : buf.metadata = some md)
    (il : List (List Int))
    (hviol :
      (∃ ind ∈ il, ind.length ≠ md.shape.length) ∨
      (∃ ind ∈ il, ∃ p ∈ ind.zip md.shape, p.1 < 0 ∨ p.2 ≤ p.1) ∨
      (∃ k a b, il[k]? = some a ∧ il[k + 1]? = some b ∧ pyListLt b a = true)) :
    ∃ msg, locateTensorElement buf il = .error (.valueError msg) := by
  have h4 : (∃ ind ∈ il, ind.length ≠ md.shape.length) ∨
      (∃ ind ∈ il, ∃ p ∈ ind.zip md.shape, p.1 < 0 ∨ p.2 ≤ p.1) ∨
      (∃ k a b, il[k]? = some a ∧ il[k + 1]? = some b ∧ pyListLt b a = true) ∨
      (∃ b0 p, il.head? = some b0 ∧ (none : Option (List Int)) = some p ∧
        pyListLt b0 p = true) := by
    rcases hviol with h | h | h
    · exact Or.inl h
    · exact Or.inr (Or.inl h)
    · exact Or.inr (Or.inr (Or.inl h))
  obtain ⟨msg, hmsg⟩ := validateLoop_error_of_viol md.shape il none h4
  exact ⟨msg, locate_error_of_validate hmd hmsg⟩

/-- Witness for C4: a batch with a strictly decreasing adjacent pair is
rejected with a `ValueError`. -/
theorem locate_invalid_query_witness :
    pyListLt [0, 0] [1, 1] = true ∧
    ∃ msg,
      locateTensorElement ⟨[], [], some ⟨"int64", NpDtype.integer, [2, 2]⟩, []⟩
        [[1, 1], [0, 0]] = .error (.valueError msg) :=
  ⟨by decide,
    locate_invalid_query_errors ⟨[], [], some ⟨"int64", NpDtype.integer, [2, 2]⟩, []⟩
      ⟨"int64", NpDtype.integer, [2, 2]⟩ rfl [[1, 1], [0, 0]]
      (Or.inr (Or.inr ⟨0, [1, 1], [0, 0], rfl, rfl, by decide⟩))⟩

/-- Claim C5: for real-valued (floating or integer) element data the six
category counts computed by `numeric_summary` — nan, `-inf`,
strictly-negative finite, zero, strictly-positive finite, `+inf` — sum
exactly to the total element count (in particular for all-nan and
all-zero data); but for a complex array the code never produces the
counts at all: building the counts list raises `TypeError`, because
`np.isneginf`/`np.isposinf` (built on `np.signbit`) reject complex
input, although the docstring advertises complex support. -/
theorem sixCounts_sum_and_complex_failure :
    (∀ values : List NpValue,
      ((sixCounts values).map Prod.snd).sum = values.length) ∧
    numericSummaryLines .complexFloating "complex128" [.fin 0] = .error .typeError := by
  constructor
  · intro values
    induction values with
    | nil => rfl
    | cons v rest ih =>
      have hv : (if npIsNan v then 1 else 0) + (if npIsNegInf v then 1 else 0)
          + (if npLtZero v && !npIsNegInf v then 1 else 0)
          + (if npEqZero v then 1 else 0)
          + (if npGtZero v && !npIsPosInf v then 1 else 0)
          + (if npIsPosInf v then 1 else 0) = 1 := by
        cases v with
        | nan => rfl
        | neginf => rfl
        | posinf => rfl
        | fin q =>
          rcases lt_trichotomy q 0 with h | h | h
          · simp [npIsNan, npIsNegInf, npIsPosInf, npLtZero, npEqZero, npGtZero,
              h, h.ne, asymm h]
          · subst h
            simp [npIsNan, npIsNegInf, npIsPosInf, npLtZero, npEqZero, npGtZero]
          · simp [npIsNan, npIsNegInf, npIsPosInf, npLtZero, npEqZero, npGtZero,
              h, h.ne', asymm h]
      simp only [sixCounts, List.map_cons, List.map_nil, List.countP_cons,
        List.sum_cons, List.sum_nil, List.length_cons] at ih ⊢
      omega
  · rfl

/-- A table built with zero-skipping is the table of the pre-filtered
column list. -/
theorem countsSummary_skip {α : Type} (toStr : α → String) (truthy : α → Bool)
    (tc : Option Nat) (counts : List (String × α)) :
    countsSummaryLines toStr truthy true tc counts =
      countsSummaryLines toStr truthy false tc
        (counts.filter (fun kv => truthy kv.2)) := by
  unfold countsSummaryLines
  simp

/-- Claim C6: for a nonempty real-valued tensor the `numeric_summary`
output starts with the two-row counts table over exactly the
nonzero-valued category columns plus the trailing total column, and the
`min`/`max`/`mean`/`std` table — built from exactly the finite elements
and never zero-filtered — is appended if and only if at least one finite
element exists; an all-nan float tensor of size 4 yields only the lines
`"| nan | total |"` and `"|   4 |     4 |"` with no statistics table. -/
theorem numericSummary_structure :
    (∀ (kind : NpDtype) (name : String) (values : List NpValue),
        values ≠ [] → (kind = NpDtype.floating ∨ kind = NpDtype.integer) →
        numericSummaryLines kind name values =
          .ok (countsSummaryLines toString (fun n => n != 0) false (some values.length)
                ((sixCounts values).filter (fun kv => kv.2 != 0))
              ++ (if (validValues values).length ≠ 0
                  then statsLines (validValues values) else []))) ∧
    (∀ valid : List ℚ, (statsLines valid).length = 2) ∧
    (∀ (counts : List (String × Nat)) (tc : Nat),
        (countsSummaryLines toString (fun n => n != 0) false (some tc) counts).length = 2) ∧
    numericSummaryLines .floating "float64" (List.replicate 4 .nan) =
      .ok ["| nan | total |", "|   4 |     4 |"] := by
  refine ⟨?_, ?_, ?_, ?_⟩
  · intro kind name values hne hk
    have hlen : values.length ≠ 0 := by simpa [List.length_eq_zero] using hne
    have hskip := countsSummary_skip toString (fun n => n != 0)
      (some values.length) (sixCounts values)
    rcases hk with rfl | rfl <;>
      · unfold numericSummaryLines npComplexGuard
        rw [if_neg hlen, hskip]
        split
        all_goals try (rename_i heq; exact absurd heq (by decide))
        all_goals rw [if_neg (by decide)]
        all_goals simp [apply_ite]
        all_goals split <;> simp_all
  · intro valid
    rfl
  · intro counts tc
    unfold countsSummaryLines
    rfl
  · rfl

/-- Witness for C6: a single finite element exercises the nonempty
hypothesis; the statistics table is appended. -/
theorem numericSummary_structure_witness :
    ([NpValue.fin 1] ≠ []) ∧
    numericSummaryLines .floating "float64" [NpValue.fin 1] =
      .ok (countsSummaryLines toString (fun n => n != 0) false (some 1)
            ((sixCounts [NpValue.fin 1]).filter (fun kv => kv.2 != 0))
          ++ (if (validValues [NpValue.fin 1]).length ≠ 0
              then statsLines (validValues [NpValue.fin 1]) else [])) :=
  ⟨by decide,
    numericSummary_structure.1 .floating "float64" [NpValue.fin 1]
      (by decide) (Or.inl rfl)⟩

/-- Splitting a successful bind in the `Except` monad. -/
theorem bind_ok_inv {ε α β : Type} {e : Except ε α} {f : α → Except ε β} {b : β}
    (h : e >>= f = .ok b) : ∃ a, e = .ok a ∧ f a = .ok b := by
  cases e with
  | error e2 => simp at h
  | ok a => exact ⟨a, rfl, h⟩

/-- Counterexample to C9 as stated: on a non-array value with a label the
returned lines are not the label line directly followed by the repr
lines — a blank separator line sits between them. -/
theorem formatTensor_non_array_counterexample :
    Except.map (fun r => r.1.lines)
        (formatTensor (.nonArray ["<obj>"]) (some "t:0") false none false none none []) =
      .ok ["Tensor \"t:0\":", "", "<obj>"] ∧
    (["Tensor \"t:0\":", "", "<obj>"] : List String) ≠ ["Tensor \"t:0\":", "<obj>"] :=
  ⟨rfl, by decide⟩

/-- Claim C9 (amended): a placeholder proto or any non-ndarray value
never raises: `format_tensor` short-circuits and returns a buffer holding
the label line (when a label is given) followed by one blank separator
line and then the plain text lines of the value, with no attribute
segments, no line annotations, no metadata, and no numeric summary; the
print-options state is untouched. -/
theorem formatTensor_non_array_short_circuit
    (reprLines textLines : List String) (label : Option String) (im : Bool)
    (aux : Option RichTextLines) (ins : Bool) (npo : Option PrintOpts)
    (ho : Option HighlightOpts) (st : PrintOpts) :
    formatTensor (.nonArray reprLines) label im aux ins npo ho st =
      .ok (⟨(match label with
             | some lb => ("Tensor \"" ++ lb ++ "\":") :: "" :: reprLines
             | none => reprLines), [], none, []⟩, st) ∧
    formatTensor (.inconvertible textLines) label im aux ins npo ho st =
      .ok (⟨(match label with
             | some lb => ("Tensor \"" ++ lb ++ "\":") :: "" :: textLines
             | none => textLines), [], none, []⟩, st) := by
  cases label <;> exact ⟨rfl, rfl⟩

/-- Counterexample to C10 as stated: with the non-`None` but empty
dictionary `{}`, `np.set_printoptions()` changes nothing, so the global
formatting state after the call equals the state before it. -/
theorem formatTensor_printoptions_counterexample :
    Except.map (fun r => r.2)
        (formatTensor (.ndarray ⟨"int64", NpDtype.integer, [1]⟩ [.fin 5] ["array([5])"])
          none false none false (some []) none [("precision", 8)]) =
      .ok [("precision", 8)] :=
  rfl

/-- Claim C10 (amended): when `format_tensor` renders an ndarray with a
non-`None` `np_printoptions` dictionary, it mutates the process-wide
print options via `np.set_printoptions` before rendering and never
restores them: the state after the call is exactly the previous state
with the given options merged in — which differs from the previous state
precisely when some option is assigned a new value (for an empty
dictionary, or values equal to the current ones, it is unchanged). -/
theorem formatTensor_printoptions_merged
    (meta : TensorMeta) (values : List NpValue) (reprLines : List String)
    (label : Option String) (im : Bool) (aux : Option RichTextLines) (ins : Bool)
    (opts : PrintOpts) (ho : Option HighlightOpts) (st : PrintOpts)
    (buf : RichTextLines) (st2 : PrintOpts)
    (h : formatTensor (.ndarray meta values reprLines) label im aux ins (some opts) ho st
          = .ok (buf, st2)) :
    st2 = npSetPrintoptions st opts := by
  unfold formatTensor at h
  obtain ⟨a, ha, hb⟩ := bind_ok_inv h
  injection hb with hb2
  injection hb2 with hb3 hb4
  exact hb4.symm

/-- Witness for C10: merging `{"edgeitems": 2}` into a state holding
`{"precision": 8}` leaves both options set after the call. -/
theorem formatTensor_printoptions_witness :
    Except.map (fun r => r.2)
        (formatTensor (.ndarray ⟨"int64", NpDtype.integer, [1]⟩ [.fin 5] ["array([5])"])
          none false none false (some [("edgeitems", 2)]) none [("precision", 8)]) =
      .ok (npSetPrintoptions [("precision", 8)] [("edgeitems", 2)]) := by
  have h : formatTensor (.ndarray ⟨"int64", NpDtype.integer, [1]⟩ [.fin 5] ["array([5])"])
      none false none false (some [("edgeitems", 2)]) none [("precision", 8)] =
      .ok (⟨["array([5])"], [], some ⟨"int64", NpDtype.integer, [1]⟩,
        [(0, .beginIndices [0])]⟩, [("precision", 8), ("edgeitems", 2)]) := rfl
  rw [h]
  exact congrArg Except.ok
    (formatTensor_printoptions_merged ⟨"int64", NpDtype.integer, [1]⟩ [.fin 5]
      ["array([5])"] none false none false [("edgeitems", 2)] none [("precision", 8)]
      _ _ h).symm

/-- Counterexample to C1 as stated: on the untruncated rendering of the
`(2, 3)` tensor `[[1,2,3],[4,5,6]]`, locating `[1, 2]` yields the row of
the line annotated `[1, 0]` but with `None` start and end columns: the
result is not a span of the token `"6"` (which sits at column 14 of that
line). -/
theorem locate_single_digit_counterexample :
    locateTensorElementSingle
        ⟨["array([[1, 2, 3],", "       [4, 5, 6]])"], [],
          some ⟨"int64", NpDtype.integer, [2, 3]⟩,
          [(0, .beginIndices [0, 0]), (1, .beginIndices [1, 0])]⟩
        [1, 2] = .ok ⟨false, 1, none, none⟩ ∧
    (⟨false, 1, none, none⟩ : LocRes) ≠ ⟨false, 1, some 14, some 15⟩ ∧
    "       [4, 5, 6]])".toList[14]? = some '6' :=
  ⟨rfl, by decide, rfl⟩

/-- Claim C1 (amended): for the tensor `[[1,2,3],[4,5,6]]` of shape
`(2, 3)` rendered without truncation, the annotator marks line 1 with
begin indices `[1, 0]`, and `locate_tensor_element` on the single
coordinate `[1, 2]` returns exactly that row, not omitted, but with
start and end columns `None`: the single-character token `"6"` is not
matched by `_NUMBER_REGEX`, whose first alternative requires a digit
followed by at least one more character of `[-+0-9eE.]`, so the span
cannot be determined. -/
theorem locate_single_digit_token :
    annotateNdarrayLines ["array([[1, 2, 3],", "       [4, 5, 6]])"]
        ⟨"int64", NpDtype.integer, [2, 3]⟩ none 0 =
      .ok [(0, .beginIndices [0, 0]), (1, .beginIndices [1, 0])] ∧
    locateTensorElementSingle
        ⟨["array([[1, 2, 3],", "       [4, 5, 6]])"], [],
          some ⟨"int64", NpDtype.integer, [2, 3]⟩,
          [(0, .beginIndices [0, 0]), (1, .beginIndices [1, 0])]⟩
        [1, 2] = .ok ⟨false, 1, none, none⟩ :=
  ⟨rfl, rfl⟩

/-- Every successful pattern match consumes at least one character. -/
theorem matchLen_pos {cs : List Char} {L : Nat} (h : matchLen cs = some L) : 1 ≤ L := by
  have hns : ∀ (ds : List Char) (M : Nat), matchNoSign ds = some M → 1 ≤ M := by
    intro ds M hm
    unfold matchNoSign at hm
    split at hm
    · split at hm
      · injection hm with hm2
        omega
      · cases hm
    · cases hm
  unfold matchLen at h
  split at h
  · split at h
    · split at h
      · split at h
        · injection h with h2
          omega
        · exact hns _ _ h
      · exact hns _ _ h
    · exact hns _ _ h
  · cases h

/-- Every match start produced by the scanner is at or after the scan
position. -/
theorem scanAux_ge : ∀ (fuel : Nat) (cs : List Char) (pos : Nat),
    ∀ q ∈ scanAux fuel cs pos, pos ≤ q.1 := by
  intro fuel
  induction fuel with
  | zero => intro cs pos q hq; simp [scanAux] at hq
  | succ f ih =>
    intro cs pos q hq
    cases cs with
    | nil => simp [scanAux] at hq
    | cons c rest =>
      unfold scanAux at hq
      split at hq
      · rcases List.mem_cons.mp hq with rfl | hq2
        · exact Nat.le_refl _
        · have := ih _ _ q hq2
          omega
      · have := ih _ _ q hq
        omega

/-- Match starts produced by the scanner are strictly increasing. -/
theorem scanAux_pairwise : ∀ (fuel : Nat) (cs : List Char) (pos : Nat),
    (scanAux fuel cs pos).Pairwise (fun a b => a.1 < b.1) := by
  intro fuel
  induction fuel with
  | zero => intro cs pos; simp [scanAux]
  | succ f ih =>
    intro cs pos
    cases cs with
    | nil => simp [scanAux]
    | cons c rest =>
      unfold scanAux
      split
      · rename_i L hL
        refine List.Pairwise.cons ?_ (ih _ _)
        intro q hq
        have hge := scanAux_ge f _ _ q hq
        have hpos := matchLen_pos hL
        simp only
        omega
      · exact ih _ _

/-- The starts recorded by the match loop form a sublist of the match
starts. -/
theorem matchLoop_sublist (ell : Nat) :
    ∀ (ms : List (Nat × Nat)) (offs : List Int) (counter : Int)
      (fl : List (Nat × Nat)),
      matchLoop ell ms offs counter = .ok fl →
      (fl.map Prod.fst).Sublist (ms.map Prod.fst) := by
  intro ms
  induction ms with
  | nil =>
    intro offs counter fl h
    cases h
    simp
  | cons m rest ih =>
    intro offs counter fl h
    obtain ⟨s, e⟩ := m
    unfold matchLoop at h
    split at h
    · cases h
      simp
    · split at h
      · cases h
      · rename_i o orest
        split at h
        · split at h
          · cases h
            simp
          · obtain ⟨r, hr, hfl⟩ := bind_ok_inv h
            cases hfl
            exact List.Sublist.cons₂ s (ih orest (counter + 1) r hr)
        · exact List.Sublist.cons s (ih (o :: orest) (counter + 1) fl h)

/-- The match loop fills at most one slot per offset. -/
theorem matchLoop_length_le (ell : Nat) :
    ∀ (ms : List (Nat × Nat)) (offs : List Int) (counter : Int)
      (fl : List (Nat × Nat)),
      matchLoop ell ms offs counter = .ok fl → fl.length ≤ offs.length := by
  intro ms
  induction ms with
  | nil =>
    intro offs counter fl h
    cases h
    simp
  | cons m rest ih =>
    intro offs counter fl h
    obtain ⟨s, e⟩ := m
    unfold matchLoop at h
    split at h
    · cases h
      simp
    · split at h
      · cases h
      · rename_i o orest
        split at h
        · split at h
          · cases h
            simp
          · obtain ⟨r, hr, hfl⟩ := bind_ok_inv h
            cases hfl
            have := ih orest (counter + 1) r hr
            simp
            omega
        · have := ih (o :: orest) (counter + 1) fl h
          simpa using this

/-- One offset is produced per queried coordinate. -/
theorem offsetsOf_length (ref : List Int) :
    ∀ (il : List (List Int)) (offs : List Int),
      offsetsOf ref il = .ok offs → offs.length = il.length := by
  intro il
  induction il with
  | nil =>
    intro offs h
    cases h
    rfl
  | cons ind rest ih =>
    intro offs h
    unfold offsetsOf at h
    split at h
    · obtain ⟨t, ht, hfl⟩ := bind_ok_inv h
      cases hfl
      simpa using ih t ht
    · cases h

/-- Structure of a successful `_locate_elements_in_line` result: the
start columns are the strictly increasing starts of some sublist of the
line's matches, padded with `none` to the batch length. -/
theorem lel_ok_parts {line : String} {il : List (List Int)} {ref : List Int}
    {sc ec : List (Option Nat)}
    (h : locateElementsInLine line il ref = .ok (sc, ec)) :
    ∃ fl : List (Nat × Nat),
      (fl.map Prod.fst).Pairwise (· < ·) ∧
      sc = fl.map (fun p => some p.1) ++ List.replicate (il.length - fl.length) none ∧
      fl.length ≤ il.length ∧
      sc.length = il.length ∧ ec.length = il.length := by
  unfold locateElementsInLine at h
  obtain ⟨offs, hoffs, h2⟩ := bind_ok_inv h
  obtain ⟨fl, hfl, h3⟩ := bind_ok_inv h2
  have hlen : offs.length = il.length := offsetsOf_length ref il offs hoffs
  have hfllen : fl.length ≤ il.length := by
    have := matchLoop_length_le _ _ _ _ _ hfl
    omega
  have hsub := matchLoop_sublist _ _ _ _ _ hfl
  have hpw : ((scanMatches line).map Prod.fst).Pairwise (· < ·) := by
    rw [List.pairwise_map]
    exact scanAux_pairwise _ _ _
  injection h3 with h4
  injection h4 with h5 h6
  exact ⟨fl, List.Pairwise.sublist hsub hpw, h5.symm, hfllen,
    by rw [← h5]; simp; omega, by rw [← h6]; simp; omega⟩

/-- Determined start columns of one line resolution are strictly
increasing along the batch. -/
theorem lel_mono {line : String} {il : List (List Int)} {ref : List Int}
    {sc ec : List (Option Nat)}
    (h : locateElementsInLine line il ref = .ok (sc, ec)) :
    ∀ (i j ci cj : Nat), i < j → sc[i]? = some (some ci) → sc[j]? = some (some cj) →
      ci < cj := by
  obtain ⟨fl, hpw, hsc, hlen, hsclen, heclen⟩ := lel_ok_parts h
  intro i j ci cj hij hi hj
  subst hsc
  by_cases hjfl : j < fl.length
  · have hifl : i < fl.length := lt_trans hij hjfl
    rw [List.getElem?_append_left (by simpa using hifl)] at hi
    rw [List.getElem?_append_left (by simpa using hjfl)] at hj
    rw [List.getElem?_map, List.getElem?_eq_getElem hifl] at hi
    rw [List.getElem?_map, List.getElem?_eq_getElem hjfl] at hj
    simp only [Option.map_some', Option.some.injEq] at hi hj
    have hmono := List.pairwise_iff_getElem.mp hpw i j (by simpa using hifl)
      (by simpa using hjfl) hij
    rw [List.getElem_map, List.getElem_map] at hmono
    rw [← hi, ← hj]
    exact hmono
  · exfalso
    rw [List.getElem?_append_right (by simp; omega)] at hj
    rcases lt_or_ge (j - fl.length) (il.length - fl.length) with hjl | hjl
    · rw [List.getElem?_replicate_of_lt (by simpa using hjl)] at hj
      cases hj
    · rw [List.getElem?_eq_none (by simpa using hjl)] at hj
      cases hj

/-- On the initial empty previous line no column can be determined. -/
theorem lel_empty_line {il : List (List Int)} {ref : List Int}
    {sc ec : List (Option Nat)}
    (h : locateElementsInLine "" il ref = .ok (sc, ec)) :
    ∀ c ∈ sc, c = none := by
  unfold locateElementsInLine at h
  obtain ⟨offs, hoffs, h2⟩ := bind_ok_inv h
  obtain ⟨fl2, hfl2, h3⟩ := bind_ok_inv h2
  have hscan : scanMatches "" = [] := rfl
  rw [hscan] at hfl2
  unfold matchLoop at hfl2
  injection hfl2 with hfl3
  subst hfl3
  injection h3 with h4
  injection h4 with h5 h6
  intro c hc
  rw [← h5] at hc
  simp only [List.map_nil, List.nil_append] at hc
  exact List.eq_of_mem_replicate hc

/-- Properties of one resolved chunk: all rows are the previous annotated
row, results are ordered, and on the initial empty previous line no
column is determined. -/
theorem sweepChunk_ok_parts {annots : List (Nat × LineAnnot)} {st : SweepSt}
    {matching : List (List Int)} {chunk : List LocRes}
    (h : sweepChunk annots st matching = .ok chunk) :
    (∀ r ∈ chunk, r.row = st.prevR) ∧ chunk.Pairwise ResRel ∧
    (st.prevLine = "" → ∀ r ∈ chunk, r.startCol = none) := by
  unfold sweepChunk at h
  obtain ⟨p, hlel, h2⟩ := bind_ok_inv h
  obtain ⟨sc, ec⟩ := p
  cases hpa : lookupAnnot annots st.prevR with
  | none =>
    rw [hpa] at h2
    simp at h2
  | some pa =>
    rw [hpa] at h2
    simp only [Except.ok.injEq] at h2
    subst h2
    have hmem : ∀ r ∈ List.zipWith
        (fun s e => (⟨pa.isOmitted, st.prevR, s, e⟩ : LocRes)) sc ec,
        ∃ i : Nat, sc[i]? = some r.startCol ∧ r.row = st.prevR := by
      intro r hr
      obtain ⟨i, hi⟩ := List.mem_iff_getElem?.mp hr
      obtain ⟨x, y, hx, hy, hf⟩ := List.getElem?_zipWith_eq_some.mp hi
      exact ⟨i, by rw [hx, ← hf], by rw [← hf]⟩
    refine ⟨fun r hr => (hmem r hr).choose_spec.2, ?_, ?_⟩
    · rw [List.pairwise_iff_getElem]
      intro i j hi hj hij
      have hig := List.getElem?_eq_getElem hi
      obtain ⟨x1, y1, hx1, hy1, hf1⟩ := List.getElem?_zipWith_eq_some.mp hig
      have hjg := List.getElem?_eq_getElem hj
      obtain ⟨x2, y2, hx2, hy2, hf2⟩ := List.getElem?_zipWith_eq_some.mp hjg
      rw [← hf1, ← hf2]
      refine Or.inr ⟨rfl, ?_⟩
      intro c c2 hc hc2
      refine lel_mono hlel i j c c2 hij ?_ ?_
      · rw [hx1]
        exact congrArg some hc
      · rw [hx2]
        exact congrArg some hc2
    · intro hline r hr
      rw [hline] at hlel
      obtain ⟨i, hsc, hrow⟩ := hmem r hr
      exact lel_empty_line hlel _ (List.getElem?_mem hsc)

/-- Appending a chunk whose rows all equal `pr` to ordered results whose
rows do not exceed `pr` (with no determined column on row `pr` itself)
keeps the results ordered. -/
theorem append_chunk_pairwise {done chunk : List LocRes} {pr : Nat}
    (hpw : done.Pairwise ResRel) (hchpw : chunk.Pairwise ResRel)
    (hle : ∀ r ∈ done, r.row ≤ pr)
    (hcol : ∀ r ∈ done, r.row = pr → r.startCol = none)
    (hrows : ∀ c ∈ chunk, c.row = pr) :
    (done ++ chunk).Pairwise ResRel := by
  rw [List.pairwise_append]
  refine ⟨hpw, hchpw, ?_⟩
  intro r hr c hc
  rcases lt_or_eq_of_le (hle r hr) with hlt | heq
  · exact Or.inl (by rw [hrows c hc]; exact hlt)
  · refine Or.inr ⟨by rw [hrows c hc, heq], ?_⟩
    intro c1 c2 hc1 hc2
    rw [hcol r hr heq] at hc1
    cases hc1

/-- The sweep preserves the invariant: on success the produced results
are ordered, and while the batch is not exhausted all result rows stay at
or below the previous annotated row (with no determined columns on that
row itself). -/
theorem sweepLoop_ok_inv (lines : List String) (annots : List (Nat × LineAnnot)) :
    ∀ (is : List Nat) (st st2 : SweepSt),
      SweepInv st is → sweepLoop lines annots is st = .ok st2 →
      st2.done.Pairwise ResRel ∧
      (st2.pending ≠ [] →
        (∀ r ∈ st2.done, r.row ≤ st2.prevR) ∧
        (∀ r ∈ st2.done, r.row = st2.prevR → r.startCol = none)) := by
  intro is
  induction is with
  | nil =>
    intro st st2 hinv h
    cases h
    obtain ⟨h1, h2, h3, _, _, _⟩ := hinv
    exact ⟨h1, fun _ => ⟨h2, h3⟩⟩
  | cons i rest ih =>
    intro st st2 hinv h
    obtain ⟨hpw, hle, hcol, hbound, hsorted, hempty⟩ := hinv
    have hprevRi : st.prevR ≤ i := hbound i (List.mem_cons_self i rest)
    have hirest : ∀ j ∈ rest, i < j := fun j hj =>
      (List.pairwise_cons.mp hsorted).1 j hj
    unfold sweepLoop at h
    cases hiann : lookupAnnot annots i with
    | none =>
      simp only [hiann] at h
      refine ih st st2 ⟨hpw, hle, hcol, ?_, ?_, ?_⟩ h
      · exact fun j hj => hbound j (List.mem_cons_of_mem i hj)
      · exact (List.pairwise_cons.mp hsorted).2
      · exact fun hmem => hempty (List.mem_cons_of_mem i hmem)
    | some a =>
      simp only [hiann] at h
      split at h
      · -- no queries matched: advance the previous-line state
        refine ih ⟨i, lines.getD i "", a.indices, st.pending, st.done⟩ st2
          ⟨hpw, ?_, ?_, ?_, ?_, ?_⟩ h
        · exact fun r hr => le_trans (hle r hr) hprevRi
        · intro r hr hri
          have hri2 : r.row = i := hri
          have h1 : r.row = st.prevR := by
            have h2 := hle r hr
            omega
          exact hcol r hr h1
        · exact fun j hj => le_of_lt (hirest j hj)
        · exact (List.pairwise_cons.mp hsorted).2
        · exact fun hmem => absurd (hirest i hmem) (lt_irrefl i)
      · -- some queries matched: resolve them against the previous line
        obtain ⟨chunk, hchunk, h2⟩ := bind_ok_inv h
        obtain ⟨hrows, hchpw, hchempty⟩ := sweepChunk_ok_parts hchunk
        have hcomb : (st.done ++ chunk).Pairwise ResRel :=
          append_chunk_pairwise hpw hchpw hle hcol hrows
        split at h2
        · -- batch exhausted: break with the previous-line state unchanged
          rename_i hpend
          cases h2
          refine ⟨hcomb, ?_⟩
          intro hne
          exact absurd (List.isEmpty_iff.mp hpend) hne
        · -- continue the sweep
          refine ih _ st2 ⟨hcomb, ?_, ?_, ?_, ?_, ?_⟩ h2
          · intro r hr
            rcases List.mem_append.mp hr with hr2 | hr2
            · exact le_trans (hle r hr2) hprevRi
            · exact le_trans (le_of_eq (hrows r hr2)) hprevRi
          · intro r hr hri
            have hri2 : r.row = i := hri
            rcases List.mem_append.mp hr with hr2 | hr2
            · have h1 : r.row = st.prevR := by
                have h2 := hle r hr2
                omega
              exact hcol r hr2 h1
            · have h1 : st.prevR = i := by
                have h2 := hrows r hr2
                omega
              have hline : st.prevLine = "" :=
                hempty (h1 ▸ List.mem_cons_self i rest)
              exact hchempty hline r hr2
          · exact fun j hj => le_of_lt (hirest j hj)
          · exact (List.pairwise_cons.mp hsorted).2
          · exact fun hmem => absurd (hirest i hmem) (lt_irrefl i)

/-- The results of a successful `locate_tensor_element` call are ordered
by `ResRel` along the batch. -/
theorem locate_results_pairwise {buf : RichTextLines} {il : List (List Int)}
    {res : List LocRes} (h : locateTensorElement buf il = .ok res) :
    res.Pairwise ResRel := by
  unfold locateTensorElement at h
  obtain ⟨md, hmd, h2⟩ := bind_ok_inv h
  obtain ⟨u, hval, h3⟩ := bind_ok_inv h2
  obtain ⟨st2, hsweep, h4⟩ := bind_ok_inv h3
  have hinit : SweepInv ⟨0, "", List.replicate md.shape.length 0, il, []⟩
      (List.range buf.lines.length) := by
    refine ⟨List.Pairwise.nil, by simp, by simp, by simp, ?_, fun _ => rfl⟩
    exact List.pairwise_lt_range _
  obtain ⟨hpw2, hrest⟩ := sweepLoop_ok_inv _ _ _ _ _ hinit hsweep
  split at h4
  · cases h4
    exact hpw2
  · rename_i hne
    obtain ⟨chunk, hchunk, h5⟩ := bind_ok_inv h4
    cases h5
    obtain ⟨hrows, hchpw, _⟩ := sweepChunk_ok_parts hchunk
    obtain ⟨hle2, hcol2⟩ := hrest (by simpa [List.isEmpty_iff] using hne)
    exact append_chunk_pairwise hpw2 hchpw hle2 hcol2 hrows

/-- Claim C2: for every annotated buffer and every two queried
coordinates `a` (at batch position `k`) and `b` (at a later batch
position `l`) with `a` lexicographically less than `b`, if
`locate_tensor_element` resolves both to non-omitted spans then the row
returned for `a` is at most the row returned for `b`, and when the rows
are equal the start column of `a` is strictly less than the start column
of `b`. -/
theorem locate_batch_monotone
    (buf : RichTextLines) (il : List (List Int)) (res : List LocRes)
    (h : locateTensorElement buf il = .ok res)
    (k l : Nat) (hkl : k < l) (a b : List Int)
    (ha : il[k]? = some a) (hb : il[l]? = some b) (hab : pyListLt a b = true)
    (r1 r2 : LocRes) (hr1 : res[k]? = some r1) (hr2 : res[l]? = some r2)
    (ho1 : r1.isOmitted = false) (ho2 : r2.isOmitted = false)
    (c1 c2 : Nat) (hc1 : r1.startCol = some c1) (hc2 : r2.startCol = some c2) :
    r1.row ≤ r2.row ∧ (r1.row = r2.row → c1 < c2) := by
  have hpw := locate_results_pairwise h
  obtain ⟨hkr, hr1e⟩ := List.getElem?_eq_some_iff.mp hr1
  obtain ⟨hlr, hr2e⟩ := List.getElem?_eq_some_iff.mp hr2
  have hrel := List.pairwise_iff_getElem.mp hpw k l hkr hlr hkl
  rw [hr1e, hr2e] at hrel
  rcases hrel with hlt | ⟨heq, hcols⟩
  · refine ⟨le_of_lt hlt, ?_⟩
    intro he
    omega
  · exact ⟨le_of_eq heq, fun _ => hcols c1 c2 hc1 hc2⟩

/-- Witness for C2: a concrete `2 × 2` float buffer with the batch
`[[0,0], [0,1]]`; both queries resolve on row 0 with columns `9 < 14`. -/
theorem locate_batch_monotone_witness :
    locateTensorElement
        ⟨["array([[ 1.,  2.],", "       [ 3.,  4.]])"], [],
          some ⟨"float64", NpDtype.floating, [2, 2]⟩,
          [(0, .beginIndices [0, 0]), (1, .beginIndices [1, 0])]⟩
        [[0, 0], [0, 1]] =
      .ok [⟨false, 0, some 9, some 11⟩, ⟨false, 0, some 14, some 16⟩] ∧
    pyListLt [0, 0] [0, 1] = true ∧
    (0 : Nat) ≤ 0 ∧ ((0 : Nat) = 0 → (9 : Nat) < 14) := by
  refine ⟨rfl, by decide, ?_⟩
  exact locate_batch_monotone
    ⟨["array([[ 1.,  2.],", "       [ 3.,  4.]])"], [],
      some ⟨"float64", NpDtype.floating, [2, 2]⟩,
      [(0, .beginIndices [0, 0]), (1, .beginIndices [1, 0])]⟩
    [[0, 0], [0, 1]]
    [⟨false, 0, some 9, some 11⟩, ⟨false, 0, some 14, some 16⟩]
    rfl 0 1 (by decide) [0, 0] [0, 1] rfl rfl (by decide)
    ⟨false, 0, some 9, some 11⟩ ⟨false, 0, some 14, some 16⟩ rfl rfl rfl rfl
    9 14 rfl rfl

/-- Keys produced by the annotator loop lie in the numbered range of its
input lines. -/
theorem annotateLinesLoop_keys (dims : List Int) (edgeItems : Int) :
    ∀ (ls : List String) (i : Nat) (st : AnnSt) (resl : List (Nat × LineAnnot)),
      annotateLinesLoop dims edgeItems ls i st = .ok resl →
      ∀ kv ∈ resl, i ≤ kv.1 ∧ kv.1 < i + ls.length := by
  intro ls
  induction ls with
  | nil =>
    intro i st resl h kv hkv
    cases h
    simp at hkv
  | cons l rest ih =>
    intro i st resl h kv hkv
    unfold annotateLinesLoop at h
    obtain ⟨p, hp, h2⟩ := bind_ok_inv h
    obtain ⟨an, st3⟩ := p
    obtain ⟨tl, htl, h3⟩ := bind_ok_inv h2
    have htail := ih (i + 1) st3 tl htl
    cases an with
    | none =>
      simp only [Except.ok.injEq] at h3
      subst h3
      have := htail kv hkv
      simp only [List.length_cons]
      omega
    | some an2 =>
      simp only [Except.ok.injEq] at h3
      subst h3
      rcases List.mem_cons.mp hkv with rfl | hkv2
      · simp only [List.length_cons]
        omega
      · have := htail kv hkv2
        simp only [List.length_cons]
        omega

/-- Annotation keys are valid indices into the annotated lines. -/
theorem annotateNdarrayLines_keys {arrayLines : List String} {meta : TensorMeta}
    {npo : Option PrintOpts} {an : List (Nat × LineAnnot)}
    (h : annotateNdarrayLines arrayLines meta npo 0 = .ok an) :
    ∀ kv ∈ an, kv.1 < arrayLines.length := by
  unfold annotateNdarrayLines at h
  dsimp only [] at h
  split at h
  · cases h
    intro kv hkv
    simp at hkv
  · intro kv hkv
    have := annotateLinesLoop_keys meta.shape (edgeItemsOf npo) arrayLines 0 _ an h kv hkv
    omega

/-- Extending a well-formed buffer with a well-formed buffer is
well-formed. -/
theorem extend_wf {a b : RichTextLines} (ha : BufWF a) (hb : BufWF b) :
    BufWF (a.extend b) := by
  obtain ⟨ha1, ha2⟩ := ha
  obtain ⟨hb1, hb2⟩ := hb
  constructor
  · intro kv hkv
    rcases List.mem_append.mp hkv with hm | hm
    · have := ha1 kv hm
      simp [RichTextLines.extend]
      omega
    · obtain ⟨kv0, hkv0, heq⟩ := List.mem_map.mp hm
      have := hb1 kv0 hkv0
      subst heq
      simp [RichTextLines.extend]
      omega
  · intro kv hkv
    rcases List.mem_append.mp hkv with hm | hm
    · have := ha2 kv hm
      simp [RichTextLines.extend]
      omega
    · obtain ⟨kv0, hkv0, heq⟩ := List.mem_map.mp hm
      have := hb2 kv0 hkv0
      subst heq
      simp [RichTextLines.extend]
      omega

/-- Appending a plain line preserves well-formedness. -/
theorem appendLine_wf {a : RichTextLines} (ha : BufWF a) (s : String) :
    BufWF (a.appendLine s) := by
  obtain ⟨ha1, ha2⟩ := ha
  constructor
  · intro kv hkv
    have := ha1 kv hkv
    simp [RichTextLines.appendLine]
    omega
  · intro kv hkv
    have := ha2 kv hkv
    simp [RichTextLines.appendLine]
    omega

/-- A buffer with no attribute segments and no annotations is
well-formed. -/
theorem plain_wf (ls : List String) (md : Option TensorMeta) :
    BufWF ⟨ls, [], md, []⟩ := by
  constructor
  · intro kv hkv
    simp at hkv
  · intro kv hkv
    simp at hkv

/-- Adding one attribute range on a valid row keeps every key valid. -/
theorem addFontAttrSeg_wf {segs : List (Nat × List (Nat × Nat × String))} {n row : Nat}
    (hs : ∀ kv ∈ segs, kv.1 < n) (hrow : row < n) (seg : Nat × Nat × String) :
    ∀ kv ∈ addFontAttrSeg segs row seg, kv.1 < n := by
  intro kv hkv
  unfold addFontAttrSeg at hkv
  split at hkv
  · obtain ⟨kv0, hkv0, heq⟩ := List.mem_map.mp hkv
    have := hs kv0 hkv0
    by_cases hk : kv0.1 = row
    · rw [if_pos hk] at heq
      subst heq
      simpa [hk] using hrow
    · rw [if_neg hk] at heq
      subst heq
      exact this
  · rcases List.mem_append.mp hkv with hm | hm
    · exact hs kv hm
    · rcases List.mem_cons.mp hm with rfl | hm2
      · exact hrow
      · simp at hm2

/-- All chunk rows equal the previous row of the producing state. -/
theorem sweepLoop_rows (lines : List String) (annots : List (Nat × LineAnnot)) (n : Nat) :
    ∀ (is : List Nat) (st st2 : SweepSt),
      (∀ j ∈ is, j < n) → st.prevR < n → (∀ r ∈ st.done, r.row < n) →
      sweepLoop lines annots is st = .ok st2 →
      st2.prevR < n ∧ (∀ r ∈ st2.done, r.row < n) := by
  intro is
  induction is with
  | nil =>
    intro st st2 hjs hpr hrows h
    cases h
    exact ⟨hpr, hrows⟩
  | cons i rest ih =>
    intro st st2 hjs hpr hrows h
    have hi : i < n := hjs i (List.mem_cons_self i rest)
    have hrest : ∀ j ∈ rest, j < n := fun j hj => hjs j (List.mem_cons_of_mem i hj)
    unfold sweepLoop at h
    cases hiann : lookupAnnot annots i with
    | none =>
      simp only [hiann] at h
      exact ih st st2 hrest hpr hrows h
    | some a =>
      simp only [hiann] at h
      split at h
      · refine ih _ st2 hrest ?_ ?_ h
        · exact hi
        · exact hrows
      · obtain ⟨chunk, hchunk, h2⟩ := bind_ok_inv h
        obtain ⟨hchrows, _, _⟩ := sweepChunk_ok_parts hchunk
        have hall : ∀ r ∈ st.done ++ chunk, r.row < n := by
          intro r hr
          rcases List.mem_append.mp hr with hm | hm
          · exact hrows r hm
          · rw [hchrows r hm]
            exact hpr
        split at h2
        · cases h2
          exact ⟨hpr, hall⟩
        · refine ih _ st2 hrest ?_ ?_ h2
          · exact hi
          · exact hall

/-- On a buffer with at least one line, every row returned by
`locate_tensor_element` is a valid line index. -/
theorem locate_rows_lt {buf : RichTextLines} {il : List (List Int)}
    {res : List LocRes} (h : locateTensorElement buf il = .ok res)
    (hne : buf.lines ≠ []) : ∀ r ∈ res, r.row < buf.lines.length := by
  have hn : 0 < buf.lines.length := List.length_pos.mpr hne
  unfold locateTensorElement at h
  obtain ⟨md, hmd, h2⟩ := bind_ok_inv h
  obtain ⟨u, hval, h3⟩ := bind_ok_inv h2
  obtain ⟨st2, hsweep, h4⟩ := bind_ok_inv h3
  obtain ⟨hpr, hrows⟩ := sweepLoop_rows buf.lines buf.annots buf.lines.length
    (List.range buf.lines.length) _ st2 (fun j hj => List.mem_range.mp hj) hn
    (by intro r hr; simp at hr) hsweep
  split at h4
  · cases h4
    exact hrows
  · obtain ⟨chunk, hchunk, h5⟩ := bind_ok_inv h4
    cases h5
    obtain ⟨hchrows, _, _⟩ := sweepChunk_ok_parts hchunk
    intro r hr
    rcases List.mem_append.mp hr with hm | hm
    · exact hrows r hm
    · rw [hchrows r hm]
      exact hpr

/-- The highlight fold only adds attribute ranges on valid rows, so it
preserves well-formedness and the line list. -/
theorem highlight_foldl_wf (fontAttr : String) :
    ∀ (results : List LocRes) (acc : RichTextLines),
      BufWF acc → (∀ r ∈ results, r.row < acc.lines.length) →
      BufWF (results.foldl
        (fun acc r =>
          if r.isOmitted then acc
          else
            match r.startCol, r.endCol with
            | some sc, some ec =>
              { acc with fontAttrSegs :=
                  addFontAttrSeg acc.fontAttrSegs r.row (sc, ec, fontAttr) }
            | _, _ => acc) acc) ∧
      (results.foldl
        (fun acc r =>
          if r.isOmitted then acc
          else
            match r.startCol, r.endCol with
            | some sc, some ec =>
              { acc with fontAttrSegs :=
                  addFontAttrSeg acc.fontAttrSegs r.row (sc, ec, fontAttr) }
            | _, _ => acc) acc).lines = acc.lines := by
  intro results
  induction results with
  | nil =>
    intro acc hacc hrows
    exact ⟨hacc, rfl⟩
  | cons r rest ih =>
    intro acc hacc hrows
    simp only [List.foldl_cons]
    have hr : r.row < acc.lines.length := hrows r (List.mem_cons_self r rest)
    have hstep : BufWF (if r.isOmitted then acc
        else
          match r.startCol, r.endCol with
          | some sc, some ec =>
            { acc with fontAttrSegs :=
                addFontAttrSeg acc.fontAttrSegs r.row (sc, ec, fontAttr) }
          | _, _ => acc) ∧
        (if r.isOmitted then acc
        else
          match r.startCol, r.endCol with
          | some sc, some ec =>
            { acc with fontAttrSegs :=
                addFontAttrSeg acc.fontAttrSegs r.row (sc, ec, fontAttr) }
          | _, _ => acc).lines = acc.lines := by
      split
      · exact ⟨hacc, rfl⟩
      · split
        · exact ⟨⟨addFontAttrSeg_wf hacc.1 hr _, hacc.2⟩, rfl⟩
        · exact ⟨hacc, rfl⟩
    obtain ⟨hwf2, hlines2⟩ := hstep
    have := ih _ hwf2 (by
      rw [hlines2]
      exact fun r2 hr2 => hrows r2 (List.mem_cons_of_mem r hr2))
    exact ⟨this.1, by rw [this.2, hlines2]⟩

/-- Extending by a well-formed auxiliary message preserves
well-formedness. -/
theorem auxExtend_wf {formatted : RichTextLines} {aux : Option RichTextLines}
    (hf : BufWF formatted) (haux : ∀ x, aux = some x → BufWF x) :
    BufWF (auxExtend formatted aux) := by
  cases aux with
  | none => exact hf
  | some a => exact extend_wf hf (haux a rfl)

/-- The label attribute segments only key line 0. -/
theorem labelAttrSegs_keys (label : Option String) :
    ∀ kv ∈ labelAttrSegs label, kv.1 = 0 := by
  cases label <;> simp [labelAttrSegs]

/-- The header buffer is well-formed: its only possible attribute key is
line 0, which exists whenever a label was given. -/
theorem headerBuf_wf (label : Option String) (im : Bool) (meta : TensorMeta) :
    BufWF (headerBuf label im meta) := by
  constructor
  · intro kv hkv
    cases label with
    | none => simp [headerBuf, labelAttrSegs] at hkv
    | some lb =>
      have hk := labelAttrSegs_keys (some lb) kv hkv
      rw [hk]
      cases im <;> simp [headerBuf, labelLines]
  · intro kv hkv
    cases label <;> simp [headerBuf] at hkv

/-- The numeric-summary block preserves well-formedness. -/
theorem summaryBlock_wf {f1 f2 : RichTextLines} {ins : Bool} {meta : TensorMeta}
    {values : List NpValue} (h1 : BufWF f1)
    (h : summaryBlock f1 ins meta values = .ok f2) : BufWF f2 := by
  unfold summaryBlock at h
  split at h
  · obtain ⟨ns, hns, h2⟩ := bind_ok_inv h
    injection h2 with h3
    subst h3
    exact appendLine_wf (extend_wf (appendLine_wf h1 _) (plain_wf ns none)) ""
  · injection h with h3
    subst h3
    exact h1

/-- The annotation keys produced for the array block are valid indices
into the array lines. -/
theorem annotsPart_keys {arrayLines : List String} {meta : TensorMeta}
    {npo : Option PrintOpts} {p : List (Nat × LineAnnot) × Option TensorMeta}
    (h : annotsPart arrayLines meta npo = .ok p) :
    ∀ kv ∈ p.1, kv.1 < arrayLines.length := by
  unfold annotsPart at h
  split at h
  · injection h with h2
    subst h2
    intro kv hkv
    simp at hkv
  · obtain ⟨a, hann, h2⟩ := bind_ok_inv h
    injection h2 with h3
    subst h3
    exact annotateNdarrayLines_keys hann

/-- The highlight pass preserves well-formedness. -/
theorem highlightPart_wf {f3 buf : RichTextLines} {meta : TensorMeta}
    {ho : Option HighlightOpts} (h3 : BufWF f3)
    (h : highlightPart f3 meta ho = .ok buf) : BufWF buf := by
  unfold highlightPart at h
  cases ho with
  | none =>
    injection h with h2
    subst h2
    exact h3
  | some opts =>
    dsimp only [] at h
    split at h
    · cases h
    · cases hl : f3.lines with
      | nil =>
        rw [hl] at h
        simp at h
      | cons l0 rest =>
        rw [hl] at h
        simp only [pure, Except.pure, exceptOkBind] at h
        have hf4 : BufWF { f3 with lines :=
            (l0 ++ " " ++ highlightSummaryStr opts.description
              opts.criterionIndices.length (npSize meta.shape)) :: rest } := by
          obtain ⟨hw1, hw2⟩ := h3
          constructor
          · intro kv hkv
            have := hw1 kv hkv
            simp only [List.length_cons]
            rw [hl] at this
            simpa using this
          · intro kv hkv
            have := hw2 kv hkv
            simp only [List.length_cons]
            rw [hl] at this
            simpa using this
        split at h
        · injection h with h2
          subst h2
          exact hf4
        · obtain ⟨results, hloc, h2⟩ := bind_ok_inv h
          injection h2 with h4
          subst h4
          have hrows := locate_rows_lt hloc (by simp)
          exact (highlight_foldl_wf opts.fontAttr results _ hf4 hrows).1

/-- Claim C8: every attributed buffer produced by the formatter is
well-formed — every key of its attribute mapping and of its annotation
mapping is a valid line index into its lines (given that the auxiliary
message supplied by the caller, itself an attributed buffer, is
well-formed). -/
theorem formatTensor_buffer_wf
    (tensor : FormatInput) (label : Option String) (im : Bool)
    (aux : Option RichTextLines) (ins : Bool) (npo : Option PrintOpts)
    (ho : Option HighlightOpts) (st : PrintOpts)
    (haux : ∀ x, aux = some x → BufWF x)
    (buf : RichTextLines) (st2 : PrintOpts)
    (h : formatTensor tensor label im aux ins npo ho st = .ok (buf, st2)) :
    (∀ kv ∈ buf.fontAttrSegs, kv.1 < buf.lines.length) ∧
    (∀ kv ∈ buf.annots, kv.1 < buf.lines.length) := by
  unfold formatTensor at h
  obtain ⟨buf0, hbuf0, h2⟩ := bind_ok_inv h
  injection h2 with h3
  injection h3 with h4 h5
  subst h4
  clear h h5
  cases tensor with
  | inconvertible tl =>
    cases label <;> (cases hbuf0; exact plain_wf _ _)
  | nonArray rl =>
    cases label <;> (cases hbuf0; exact plain_wf _ _)
  | ndarray meta values rl =>
    unfold formatTensorBuf at hbuf0
    obtain ⟨f2, hf2, hb2⟩ := bind_ok_inv hbuf0
    obtain ⟨p, hp, hb3⟩ := bind_ok_inv hb2
    have hf1 : BufWF (auxExtend (headerBuf label im meta) aux) :=
      auxExtend_wf (headerBuf_wf label im meta) haux
    have hf2wf : BufWF f2 := summaryBlock_wf hf1 hf2
    have harr : BufWF ⟨rl, [], p.2, p.1⟩ := by
      constructor
      · intro kv hkv
        simp at hkv
      · intro kv hkv
        exact annotsPart_keys hp kv hkv
    exact highlightPart_wf (extend_wf hf2wf harr) hb3

attribute [local semireducible] Rat.add Rat.mul Rat.inv Rat.sub in
set_option maxRecDepth 10000 in
/-- Witness for C8: a fully concrete formatting call (label, metadata,
numeric summary, print options and a highlight) produces a well-formed
buffer. -/
theorem formatTensor_buffer_wf_witness :
    formatTensor
        (.ndarray ⟨"float64", NpDtype.floating, [2, 2]⟩
          [.fin 1, .fin 2, .fin 3, .fin 4]
          ["array([[ 1.,  2.],", "       [ 3.,  4.]])"])
        (some "w:0") true none true (some [("edgeitems", 2)])
        (some ⟨[[0, 1], [1, 0]], some "v > 1.5", "bold"⟩) [] =
      .ok (⟨["Tensor \"w:0\": Highlighted(v > 1.5): 2 of 4 element(s) (50.00%)",
             "  dtype: float64", "  shape: (2, 2)", "", "Numeric summary:",
             "| + | total |", "| 4 |     4 |", "|  min  max mean  std |",
             "|    1    4  5/2  5/4 |", "", "array([[ 1.,  2.],",
             "       [ 3.,  4.]])"],
            [(0, [(8, 11, "white")]), (10, [(14, 16, "bold")]), (11, [(9, 11, "bold")])],
            some ⟨"float64", NpDtype.floating, [2, 2]⟩,
            [(10, .beginIndices [0, 0]), (11, .beginIndices [1, 0])]⟩,
        [("edgeitems", 2)]) ∧
    (∀ kv ∈ [(0, [((8 : Nat), (11 : Nat), "white")]), (10, [(14, 16, "bold")]),
        (11, [(9, 11, "bold")])], (kv : Nat × List (Nat × Nat × String)).1 < 12) ∧
    (∀ kv ∈ [((10 : Nat), LineAnnot.beginIndices [0, 0]),
        (11, LineAnnot.beginIndices [1, 0])], kv.1 < 12) := by
  refine ⟨rfl, ?_⟩
  exact formatTensor_buffer_wf
    (.ndarray ⟨"float64", NpDtype.floating, [2, 2]⟩
      [.fin 1, .fin 2, .fin 3, .fin 4]
      ["array([[ 1.,  2.],", "       [ 3.,  4.]])"])
    (some "w:0") true none true (some [("edgeitems", 2)])
    (some ⟨[[0, 1], [1, 0]], some "v > 1.5", "bold"⟩) []
    (fun x hx => nomatch hx)
    ⟨["Tensor \"w:0\": Highlighted(v > 1.5): 2 of 4 element(s) (50.00%)",
      "  dtype: float64", "  shape: (2, 2)", "", "Numeric summary:",
      "| + | total |", "| 4 |     4 |", "|  min  max mean  std |",
      "|    1    4  5/2  5/4 |", "", "array([[ 1.,  2.],",
      "       [ 3.,  4.]])"],
     [(0, [(8, 11, "white")]), (10, [(14, 16, "bold")]), (11, [(9, 11, "bold")])],
     some ⟨"float64", NpDtype.floating, [2, 2]⟩,
     [(10, .beginIndices [0, 0]), (11, .beginIndices [1, 0])]⟩
    [("edgeitems", 2)] rfl

end TensorData
